import Mathlib

/-!
Verification development for the TaskLog session-lifecycle tracker.

The definitions below are a shallow embedding of the application logic of the
repository (the `App` component and its handlers).  Conventions of the
embedding:

* Timestamps are millisecond epoch values, embedded as `Int` (JavaScript
  numbers subtract exactly on this range).
* The optional `end` field of a session is embedded as `endTime : Option Int`
  (`end` is a reserved word in Lean).  In the running program timestamps are
  always strictly positive, so the JavaScript truthiness test `!session.end`
  coincides with `endTime = none`, and the truthiness tests on
  `activeTaskId` / `startTimeRef.current` coincide with `Option.isSome`.
* The JavaScript object `{ [dateKey]: Task[] }` is embedded as an association
  list `DayMap` with unique keys; `{ ...prev, [k]: v }` becomes `setDay` and
  `prev[k] || []` becomes `getDay`.
* `id.startsWith('calendar-')` is embedded on the underlying character lists
  (`List.isPrefixOf`), which is its exact semantics.
* UI-only concerns (rendering, clipboard, Firestore transport, goals) are not
  part of any claim and are not modelled.
-/

namespace TaskLog

/-- One tracking session `{ start, end? }` of a task. -/
structure Session where
  start : Int
  endTime : Option Int
deriving Repr, DecidableEq

/-- A task record, as in the `Task` interface of the source. -/
structure Task where
  id : String
  name : String
  totalTime : Int
  sessions : List Session
  color : String
  order : Nat
  estimatedTime : Option Int
  scheduledStart : Option Int
  scheduledEnd : Option Int
deriving Repr, DecidableEq

/-- The day-partitioned task index `{ [dateKey: string]: Task[] }`. -/
abbrev DayMap := List (String × List Task)

/-- The lookup `m[k] || []` of the source. -/
def getDay (m : DayMap) (k : String) : List Task :=
  match m.find? (fun p => p.1 == k) with
  | some p => p.2
  | none => []

/-- The update `{ ...m, [k]: v }` of the source: replace the entry for `k`, or append it. -/
def setDay : DayMap → String → List Task → DayMap
  | [], k, v => [(k, v)]
  | p :: rest, k, v => if p.1 == k then (k, v) :: rest else p :: setDay rest k v

/-- Close every open session: the inline
`sessions.map(s => !s.end ? { ...s, end: now } : s)` used by stop, switch and
auto-stop. -/
def closeSessions (now : Int) (ss : List Session) : List Session :=
  ss.map (fun sess => if sess.endTime.isNone then { sess with endTime := some now } else sess)

/-- The totalTime recomputation
`sessions.reduce((sum, s) => s.end ? sum + (s.end - s.start) : sum, 0)`. -/
def sessionsTotal (ss : List Session) : Int :=
  ss.foldl (fun sum sess =>
    match sess.endTime with
    | some e => sum + (e - sess.start)
    | none => sum) 0

/-- Modelled from the spec: the sum of `end - start` over exactly the closed
sessions of a list (open sessions contribute nothing).  Used to compare the
code's `sessionsTotal` against the specification's wording. -/
def closedSum (ss : List Session) : Int :=
  ((ss.filter (fun sess => sess.endTime.isSome)).map
    (fun sess => sess.endTime.getD 0 - sess.start)).sum

/-- The in-memory application state that the handlers mutate:
per-day index, the selected day's cached task list, the active-task marker and
its start instant, and the (fixed) selected/today day keys. -/
structure AppState where
  tasksByDate : DayMap
  tasks : List Task
  activeTaskId : Option String
  startTime : Option Int
  selectedDateKey : String
  todayKey : String
deriving Repr, DecidableEq

/-- Handler `handleAddTask`: prepend a fresh task with no sessions, bump every other
order by one, and mirror the list into `tasksByDate[selectedDateKey]`. -/
def handleAddTask (s : AppState) (id name color : String) : AppState :=
  let newTask : Task :=
    { id := id, name := name, totalTime := 0, sessions := [], color := color,
      order := 0, estimatedTime := none, scheduledStart := none, scheduledEnd := none }
  let updatedTasks := newTask :: s.tasks.map (fun t => { t with order := t.order + 1 })
  { s with tasks := updatedTasks,
           tasksByDate := setDay s.tasksByDate s.selectedDateKey updatedTasks }

/-- Handler `handleTaskToggle`: stop the clicked task when it is the active one,
otherwise close the previously active task's open sessions and start the
clicked one, all in one update. -/
def handleTaskToggle (s : AppState) (taskId : String) (now : Int) : AppState :=
  if s.activeTaskId = some taskId then
    -- stop branch: end every open session of the clicked task
    let updatedTasks := s.tasks.map (fun t =>
      if t.id = taskId then { t with sessions := closeSessions now t.sessions } else t)
    { s with tasks := updatedTasks,
             tasksByDate := setDay s.tasksByDate s.selectedDateKey updatedTasks,
             activeTaskId := none, startTime := none }
  else
    -- start branch: first close the open sessions of the currently active task
    let tasks1 :=
      if s.activeTaskId.isSome ∧ s.startTime.isSome then
        s.tasks.map (fun t =>
          if some t.id = s.activeTaskId then
            { t with sessions := closeSessions now t.sessions }
          else t)
      else s.tasks
    -- then open a session on the clicked task (closing strays defensively)
    let tasks2 := tasks1.map (fun t =>
      if t.id = taskId then
        if 0 < (t.sessions.filter (fun sess => sess.endTime.isNone)).length then
          if s.activeTaskId.isSome ∧ s.activeTaskId ≠ some taskId then
            { t with sessions := closeSessions now t.sessions ++ [⟨now, none⟩] }
          else t
        else { t with sessions := t.sessions ++ [⟨now, none⟩] }
      else t)
    { s with tasks := tasks2,
             tasksByDate := setDay s.tasksByDate s.selectedDateKey tasks2,
             activeTaskId := some taskId, startTime := some now }

/-- The per-task closure `task.id === taskId ? close open sessions : task`
used by the stop branch and the auto-stop guard (named form of the inline
lambda, definitionally equal to it). -/
def stopTask (taskId : String) (now : Int) (t : Task) : Task :=
  if t.id = taskId then { t with sessions := closeSessions now t.sessions } else t

/-- Named form of the start branch's first map: close the open sessions of
the currently tracked active task. -/
def closeActive (s : AppState) (now : Int) (t : Task) : Task :=
  if some t.id = s.activeTaskId then { t with sessions := closeSessions now t.sessions }
  else t

/-- Named form of the start branch's second map: open a session on the
clicked task, defensively closing strays when another task was tracked. -/
def startTarget (s : AppState) (taskId : String) (now : Int) (t : Task) : Task :=
  if t.id = taskId then
    if 0 < (t.sessions.filter (fun sess => sess.endTime.isNone)).length then
      if s.activeTaskId.isSome ∧ s.activeTaskId ≠ some taskId then
        { t with sessions := closeSessions now t.sessions ++ [⟨now, none⟩] }
      else t
    else { t with sessions := t.sessions ++ [⟨now, none⟩] }
  else t

/-- The task list produced by the start branch of `handleTaskToggle`. -/
def startTasks (s : AppState) (taskId : String) (now : Int) : List Task :=
  (if s.activeTaskId.isSome ∧ s.startTime.isSome then s.tasks.map (closeActive s now)
   else s.tasks).map (startTarget s taskId now)

/-- The bound `9 * 60 * 60 * 1000 + 59 * 60 * 1000 + 59 * 1000` of the auto-stop guard. -/
def maxDuration : Int := 9 * 60 * 60 * 1000 + 59 * 60 * 1000 + 59 * 1000

/-- The snapshot written by an immediate (non-debounced) save. -/
structure SavePayload where
  tasksByDate : DayMap
  activeTaskId : Option String
  activeTaskStartTime : Option Int
deriving Repr, DecidableEq

/-- One evaluation of the ~1s auto-stop guard: if the active task has run for
`maxDuration` or longer, close all its open sessions, clear the marker, and
emit an immediate save with the cleared state. -/
def autoStopTick (s : AppState) (now : Int) : AppState × Option SavePayload :=
  match s.activeTaskId, s.startTime with
  | some aid, some t0 =>
    if maxDuration ≤ now - t0 then
      let updatedTasks := s.tasks.map (fun t =>
        if t.id = aid then { t with sessions := closeSessions now t.sessions } else t)
      let tbd := setDay s.tasksByDate s.selectedDateKey updatedTasks
      ({ s with tasks := updatedTasks, tasksByDate := tbd,
                activeTaskId := none, startTime := none },
       some { tasksByDate := tbd, activeTaskId := none, activeTaskStartTime := none })
    else (s, none)
  | _, _ => (s, none)

/-- Handler `handleDeleteTask`: drop the task, and clear the marker when it was the
active one. -/
def handleDeleteTask (s : AppState) (taskId : String) : AppState :=
  let filteredTasks := s.tasks.filter (fun t => !(t.id == taskId))
  let s1 := { s with tasks := filteredTasks,
                     tasksByDate := setDay s.tasksByDate s.selectedDateKey filteredTasks }
  if s.activeTaskId = some taskId then { s1 with activeTaskId := none, startTime := none }
  else s1

/-- The update `sessions.map((session, idx) => idx === sessionIndex ? { ...session,
start: newStart, end: newEnd } : session)` as an index-carrying recursion. -/
def mapSessionsAt (sessionIndex : Nat) (newStart newEnd : Int) :
    Nat → List Session → List Session
  | _, [] => []
  | idx, sess :: rest =>
    (if idx = sessionIndex then { sess with start := newStart, endTime := some newEnd }
     else sess) :: mapSessionsAt sessionIndex newStart newEnd (idx + 1) rest

/-- Handler `handleSaveSession`: reject when the resulting end is not after the
resulting start (the alert plus early return of the source); otherwise update
the session bounds and recompute the task's totalTime. -/
def handleSaveSession (s : AppState) (taskId : String) (sessionIndex : Nat)
    (newStart newEnd : Int) : Except String AppState :=
  if newEnd ≤ newStart then
    Except.error "終了時間は開始時間より後にしてください"
  else
    let currentTasks := getDay s.tasksByDate s.selectedDateKey
    let updatedTasks := currentTasks.map (fun t =>
      if t.id = taskId then
        let updatedSessions := mapSessionsAt sessionIndex newStart newEnd 0 t.sessions
        { t with sessions := updatedSessions, totalTime := sessionsTotal updatedSessions }
      else t)
    Except.ok { s with tasksByDate := setDay s.tasksByDate s.selectedDateKey updatedTasks,
                       tasks := updatedTasks }

/-- The state left behind by `handleSaveSession`: on rejection nothing is
mutated. -/
def applySaveSession (s : AppState) (taskId : String) (sessionIndex : Nat)
    (newStart newEnd : Int) : AppState :=
  match handleSaveSession s taskId sessionIndex newStart newEnd with
  | Except.ok s' => s'
  | Except.error _ => s

/-- The filter `sessions.filter((_, idx) => idx !== sessionIndex)`. -/
def removeSessionAt (sessionIndex : Nat) : Nat → List Session → List Session
  | _, [] => []
  | idx, sess :: rest =>
    if idx = sessionIndex then removeSessionAt sessionIndex (idx + 1) rest
    else sess :: removeSessionAt sessionIndex (idx + 1) rest

/-- Named form of `handleSaveSession`'s per-task update (definitionally equal
to the inline lambda). -/
def saveTask (taskId : String) (sessionIndex : Nat) (newStart newEnd : Int)
    (t : Task) : Task :=
  if t.id = taskId then
    { t with sessions := mapSessionsAt sessionIndex newStart newEnd 0 t.sessions,
             totalTime := sessionsTotal (mapSessionsAt sessionIndex newStart newEnd 0 t.sessions) }
  else t

/-- Named form of `handleDeleteSession`'s per-task update. -/
def deleteSessionTask (taskId : String) (sessionIndex : Nat) (t : Task) : Task :=
  if t.id = taskId then
    { t with sessions := removeSessionAt sessionIndex 0 t.sessions,
             totalTime := sessionsTotal (removeSessionAt sessionIndex 0 t.sessions) }
  else t

/-- Handler `handleDeleteSession` (the path after the confirmation dialog): remove the
session and recompute the task's totalTime. -/
def handleDeleteSession (s : AppState) (taskId : String) (sessionIndex : Nat) : AppState :=
  let currentTasks := getDay s.tasksByDate s.selectedDateKey
  let updatedTasks := currentTasks.map (fun t =>
    if t.id = taskId then
      let updatedSessions := removeSessionAt sessionIndex 0 t.sessions
      { t with sessions := updatedSessions, totalTime := sessionsTotal updatedSessions }
    else t)
  { s with tasksByDate := setDay s.tasksByDate s.selectedDateKey updatedTasks,
           tasks := updatedTasks }

/-- Handler `handleResetToday` (day-clear, the path after the confirmation dialog):
drop the selected day's sessions, recompute totalTime, and clear the active
marker.  `selectedDateStartTime` is the epoch instant of the selected day's
midnight; `isToday` is the source's `selectedDate.toDateString() === new
Date().toDateString()` comparison, embedded on the day keys.  Note the source
does not write the cleared list back into `tasksByDate`. -/
def handleResetToday (s : AppState) (selectedDateStartTime : Int) : AppState :=
  let isToday := s.selectedDateKey == s.todayKey
  let updatedTasks := s.tasks.map (fun t =>
    let filteredSessions := t.sessions.filter (fun sess =>
      match sess.endTime with
      | some e => decide (e < selectedDateStartTime)
      | none => decide (sess.start < selectedDateStartTime) || !isToday ||
                !(s.activeTaskId == some t.id))
    { t with totalTime := sessionsTotal filteredSessions, sessions := filteredSessions })
  let s1 := { s with tasks := updatedTasks }
  if s.activeTaskId.isSome then { s1 with activeTaskId := none, startTime := none } else s1

/-- The fixed ten-colour palette `TASK_COLORS`. -/
def TASK_COLORS : List String :=
  ["#667eea", "#764ba2", "#f093fb", "#4facfe", "#00f2fe",
   "#43e97b", "#fa709a", "#fee140", "#30cfd0", "#a8edea"]

/-- A Google Calendar event as consumed by `fetchTasksFromGoogleCalendar`:
either explicit `start.dateTime` / `end.dateTime` instants, or all-day
`start.date` / `end.date` values.  The `YYYY-MM-DD` date strings are embedded
pre-parsed as `(year, month, day)` triples. -/
structure CalEvent where
  id : String
  summary : Option String
  startDateTime : Option Int
  endDateTime : Option Int
  startDate : Option (Nat × Nat × Nat)
  endDate : Option (Nat × Nat × Nat)
deriving Repr, DecidableEq

/-- The event filter: keep events having `start.dateTime` or `start.date`. -/
def eventFilter (e : CalEvent) : Bool := e.startDateTime.isSome || e.startDate.isSome

/-- The index-independent part of the event-to-candidate mapping.  `mkTime`
is the host's `new Date(year, month-1, day, hour, 0, 0, 0).getTime()`
(timezone-dependent), passed in as a parameter. -/
def eventCore (mkTime : Nat → Nat → Nat → Nat → Int) (index : Nat) (e : CalEvent) : Task :=
  let sched : Option Int × Option Int × Int :=
    match e.startDateTime, e.endDateTime with
    | some sdt, some edt => (some sdt, some edt, edt - sdt)
    | _, _ =>
      match e.startDate, e.endDate with
      | some (y, mo, d), some _ =>
        (some (mkTime y mo d 9), some (mkTime y mo d 17), 8 * 60 * 60 * 1000)
      | _, _ => (none, none, 0)
  { id := "calendar-" ++ e.id,
    name := e.summary.getD "無題のイベント",
    totalTime := 0,
    sessions := [],
    color := TASK_COLORS.getD (index % TASK_COLORS.length) "",
    order := index,
    estimatedTime := if 0 < sched.2.2 then some sched.2.2 else none,
    scheduledStart := sched.1,
    scheduledEnd := sched.2.1 }

/-- The candidate task built from one event at map `index`: its `order` is
`dateTasks.length + index`. -/
def eventToTask (mkTime : Nat → Nat → Nat → Nat → Int) (dateTasksLength index : Nat)
    (e : CalEvent) : Task :=
  { eventCore mkTime index e with order := dateTasksLength + index }

/-- The candidate list `data.items.filter(...).map((event, index) => ...)`,
with the running map index made explicit. -/
def candTasks (mkTime : Nat → Nat → Nat → Nat → Int) (dateTasksLength : Nat) :
    Nat → List CalEvent → List Task
  | _, [] => []
  | index, e :: rest =>
    eventToTask mkTime dateTasksLength index e ::
      candTasks mkTime dateTasksLength (index + 1) rest

/-- Update an existing task from the matching candidate: calendar-origin tasks
(ids with the `calendar-` prefix) get the candidate's scheduling fields only;
sessions and totalTime carry over unchanged. -/
def updateFromCandidates (calendarTasks : List Task) (t : Task) : Task :=
  if "calendar-".data.isPrefixOf t.id.data then
    match calendarTasks.find? (fun ct => ct.id == t.id) with
    | some ct =>
      { t with scheduledStart := ct.scheduledStart, scheduledEnd := ct.scheduledEnd,
               estimatedTime := ct.estimatedTime }
    | none => t
  else t

/-- The filter `calendarTasks.filter(t => !currentTaskIds.has(t.id))`: candidates with
no existing task of the same id, appended as new tasks. -/
def mergeDayNew (calendarTasks : List Task) (currentTaskIds : List String) : List Task :=
  calendarTasks.filter (fun t => !(currentTaskIds.contains t.id))

/-- The merge step of `fetchTasksFromGoogleCalendar` for one day: update the
scheduling fields of matching calendar-origin tasks and append the unmatched
candidates. -/
def mergeDay (mkTime : Nat → Nat → Nat → Nat → Int) (dateTasks : List Task)
    (events : List CalEvent) : List Task :=
  let currentTaskIds := dateTasks.map (fun t => t.id)
  let calendarTasks := candTasks mkTime dateTasks.length 0 (events.filter eventFilter)
  let updatedDateTasks := dateTasks.map (updateFromCandidates calendarTasks)
  updatedDateTasks ++ mergeDayNew calendarTasks currentTaskIds

/-- Function `fetchTasksFromGoogleCalendar` at the state level: merge the day's events
into `tasksByDate[dateKey]`, and refresh the cached `tasks` only when the
fetched day is the selected one. -/
def fetchTasksFromGoogleCalendar (mkTime : Nat → Nat → Nat → Nat → Int) (s : AppState)
    (dateKey : String) (events : List CalEvent) : AppState :=
  let finalDateTasks := mergeDay mkTime (getDay s.tasksByDate dateKey) events
  { s with tasksByDate := setDay s.tasksByDate dateKey finalDateTasks,
           tasks := if dateKey == s.selectedDateKey then finalDateTasks else s.tasks }

/-- The per-day check inside the inbound subscription's `setTasksByDate`
diff-gate.  Note it mirrors the source exactly: a day whose task COUNT differs
returns `true` (treated as passing), so only same-count days with different id
sets make the gate fire. -/
def dayUnchangedCheck (prevTasks newTasks : List Task) : Bool :=
  if prevTasks.length ≠ newTasks.length then true
  else
    let prevIds := prevTasks.map (fun t => t.id)
    let newIds := newTasks.map (fun t => t.id)
    prevIds.all (fun id => newIds.contains id) && newIds.all (fun id => prevIds.contains id)

/-- The `hasChanges` computation of the inbound subscription callback: the day-key counts
differ, or some local day fails `dayUnchangedCheck`. -/
def hasChanges (prev incoming : DayMap) : Bool :=
  prev.length != incoming.length ||
    !(prev.all (fun p => dayUnchangedCheck (getDay prev p.1) (getDay incoming p.1)))

/-- The `setTasksByDate` updater of the inbound subscription callback: keep the
previous index when `hasChanges` is false, otherwise take the incoming index
wholesale. -/
def mergeTasksByDate (prev incoming : DayMap) : DayMap :=
  if hasChanges prev incoming then incoming else prev

/-- Number of open sessions of one task. -/
def openCnt (t : Task) : Nat := t.sessions.countP (fun sess => sess.endTime.isNone)

/-- Number of open sessions across a task list. -/
def openCount (l : List Task) : Nat := (l.map openCnt).sum

/-- All tasks of the whole day-partitioned universe. -/
def allTasksOf (m : DayMap) : List Task := (m.map (fun p => p.2)).flatten

/-- The empty application state for a fixed selected/today day key. -/
def initState (sel today : String) : AppState :=
  { tasksByDate := [], tasks := [], activeTaskId := none, startTime := none,
    selectedDateKey := sel, todayKey := today }

/-- States reachable through the local handlers: add, start/stop toggle,
auto-stop, task delete, manual session edit, session delete, and calendar
import.  `add` assumes the generated id (`Date.now().toString()`) is fresh for
the day, and `calendarImport` assumes the calendar returns pairwise-distinct
event ids, both true in the running program. -/
inductive Reachable : AppState → Prop
  | init (sel today : String) : Reachable (initState sel today)
  | add {s : AppState} (id name color : String) (h : Reachable s)
      (hfresh : id ∉ s.tasks.map (fun t => t.id)) :
      Reachable (handleAddTask s id name color)
  | toggle {s : AppState} (taskId : String) (now : Int) (h : Reachable s) :
      Reachable (handleTaskToggle s taskId now)
  | autoStop {s : AppState} (now : Int) (h : Reachable s) :
      Reachable (autoStopTick s now).1
  | deleteTask {s : AppState} (taskId : String) (h : Reachable s) :
      Reachable (handleDeleteTask s taskId)
  | saveSession {s : AppState} (taskId : String) (i : Nat) (a b : Int) (h : Reachable s) :
      Reachable (applySaveSession s taskId i a b)
  | deleteSession {s : AppState} (taskId : String) (i : Nat) (h : Reachable s) :
      Reachable (handleDeleteSession s taskId i)
  | calendarImport {s : AppState} (mkTime : Nat → Nat → Nat → Nat → Int)
      (dateKey : String) (events : List CalEvent) (h : Reachable s)
      (hids : (events.map (fun e => e.id)).Nodup) :
      Reachable (fetchTasksFromGoogleCalendar mkTime s dateKey events)

/-- The inductive invariant carried through `Reachable`: the cached list
mirrors the selected day, day keys are unique, at most one session in the
whole universe is open, every open session's owner is the tracked active task,
an active marker always comes with a start instant, open sessions live only on
the selected day, and the selected day's task ids are pairwise distinct. -/
def Inv (s : AppState) : Prop :=
  s.tasks = getDay s.tasksByDate s.selectedDateKey ∧
  (s.tasksByDate.map Prod.fst).Nodup ∧
  openCount (allTasksOf s.tasksByDate) ≤ 1 ∧
  (∀ p ∈ s.tasksByDate, ∀ t ∈ p.2, 0 < openCnt t → s.activeTaskId = some t.id) ∧
  (s.activeTaskId.isSome → s.startTime.isSome) ∧
  (∀ p ∈ s.tasksByDate, p.1 ≠ s.selectedDateKey → ∀ t ∈ p.2, openCnt t = 0) ∧
  (s.tasks.map (fun t => t.id)).Nodup

def wTaskA : Task := ⟨"a", "na", 0, [⟨10, none⟩], "c", 0, none, none, none⟩

def wTaskB : Task := ⟨"b", "nb", 0, [⟨1, some 4⟩], "c", 1, none, none, none⟩

def wStart : AppState :=
  ⟨[("d", [wTaskA, wTaskB])], [wTaskA, wTaskB], some "a", some 10, "d", "d"⟩

def wAuto : AppState :=
  ⟨[("d", [wTaskA])], [wTaskA], some "a", some 10, "d", "d"⟩

def wStray : AppState :=
  ⟨[("d", [wTaskA, wTaskB])], [wTaskA, wTaskB], some "b", some 7, "d", "d"⟩

def wEdit : AppState :=
  ⟨[("d", [wTaskB])], [wTaskB], none, none, "d", "d"⟩

def wAllDay : CalEvent := ⟨"a1", none, none, none, some (2024, 1, 6), some (2024, 1, 6)⟩

/-- The three scheduling fields an existing task receives from a candidate. -/
def schedOf (t : Task) : Option Int × Option Int × Option Int :=
  (t.scheduledStart, t.scheduledEnd, t.estimatedTime)

/-- Fixture day for the order-allocation witness: one existing task with order 0. -/
def wDayC9 : List Task := [⟨"a", "na", 0, [], "c", 0, none, none, none⟩]

/-- Fixture event list for the order-allocation witness: one timed event. -/
def wEvC9 : List CalEvent := [⟨"e1", some "m", some 32400000, some 36000000, none, none⟩]

/-- The single freshly appended task produced by merging wEvC9 into wDayC9. -/
def wNewC9 : Task :=
  (mergeDayNew (candTasks (fun _ _ _ _ => 0) wDayC9.length 0 (wEvC9.filter eventFilter))
    (wDayC9.map (fun t => t.id))).headD ⟨"", "", 0, [], "", 0, none, none, none⟩

/-! ### Helper lemmas about sessions, counting, and the day map -/

theorem countP_closeSessions (now : Int) (ss : List Session) :
    (closeSessions now ss).countP (fun sess => sess.endTime.isNone) = 0 := by
  rw [List.countP_eq_zero]
  intro a ha
  rcases List.mem_map.mp ha with ⟨b, _, rfl⟩
  by_cases hb : b.endTime.isNone <;> simp [hb]

theorem openCount_nil : openCount [] = 0 := rfl

theorem openCount_cons (t : Task) (l : List Task) :
    openCount (t :: l) = openCnt t + openCount l := by
  simp [openCount]

theorem openCount_append (l1 l2 : List Task) :
    openCount (l1 ++ l2) = openCount l1 + openCount l2 := by
  simp [openCount]

theorem openCount_eq_zero {l : List Task} :
    openCount l = 0 ↔ ∀ t ∈ l, openCnt t = 0 := by
  constructor
  · intro h t ht
    have := List.sum_eq_zero_iff.mp h
    exact this (openCnt t) (List.mem_map_of_mem openCnt ht)
  · intro h
    exact List.sum_eq_zero_iff.mpr (by
      intro x hx
      rcases List.mem_map.mp hx with ⟨t, ht, rfl⟩
      exact h t ht)

theorem getDay_nil (k : String) : getDay [] k = [] := rfl

theorem getDay_cons (p : String × List Task) (rest : DayMap) (k : String) :
    getDay (p :: rest) k = if p.1 == k then p.2 else getDay rest k := by
  by_cases h : p.1 == k <;> simp [getDay, List.find?, h]

theorem getDay_setDay_self (m : DayMap) (k : String) (v : List Task) :
    getDay (setDay m k v) k = v := by
  induction m with
  | nil => simp [setDay, getDay_cons]
  | cons p rest ih =>
    by_cases h : p.1 == k
    · simp [setDay, h, getDay_cons]
    · simp [setDay, h, getDay_cons, ih]

theorem getDay_setDay_ne (m : DayMap) (k k' : String) (v : List Task) (h : k' ≠ k) :
    getDay (setDay m k v) k' = getDay m k' := by
  induction m with
  | nil =>
    have : ¬ (k == k') := by simp [Ne.symm h]
    simp [setDay, getDay_cons, this, getDay_nil]
  | cons p rest ih =>
    by_cases hp : p.1 == k
    · have hk : (k == k') = false := by simp [Ne.symm h]
      have hp' : (p.1 == k') = false := by
        have : p.1 = k := by simpa using hp
        simp [this, Ne.symm h]
      simp [setDay, hp, getDay_cons, hk, hp']
    · by_cases hq : p.1 == k'
      · simp [setDay, hp, getDay_cons, hq]
      · simp [setDay, hp, getDay_cons, hq, ih]

theorem mem_keys_setDay {m : DayMap} {k x : String} {v : List Task}
    (h : x ∈ (setDay m k v).map Prod.fst) : x ∈ m.map Prod.fst ∨ x = k := by
  induction m with
  | nil => simpa [setDay] using h
  | cons p rest ih =>
    by_cases hp : p.1 == k
    · simp only [setDay, hp, if_pos, List.map_cons, List.mem_cons] at h
      rcases h with h | h
      · right; exact h
      · left; simp [h]
    · simp only [setDay, hp, if_neg, Bool.false_eq_true, not_false_iff, List.map_cons,
        List.mem_cons] at h
      rcases h with h | h
      · left; simp [h]
      · rcases ih h with h' | h'
        · left; simp [h']
        · right; exact h'

theorem setDay_keys_nodup {m : DayMap} (k : String) (v : List Task)
    (hk : (m.map Prod.fst).Nodup) : ((setDay m k v).map Prod.fst).Nodup := by
  induction m with
  | nil => simp [setDay]
  | cons p rest ih =>
    rcases List.nodup_cons.mp hk with ⟨hnot, hrest⟩
    by_cases hp : p.1 == k
    · have hpk : p.1 = k := by simpa using hp
      have hre : setDay (p :: rest) k v = (k, v) :: rest := by simp [setDay, hp]
      rw [hre, List.map_cons]
      refine List.nodup_cons.mpr ⟨?_, hrest⟩
      simpa [hpk] using hnot
    · have hpk : p.1 ≠ k := by simpa using hp
      have hre : setDay (p :: rest) k v = p :: setDay rest k v := by simp [setDay, hp]
      rw [hre, List.map_cons]
      refine List.nodup_cons.mpr ⟨?_, ih hrest⟩
      intro hmem
      rcases mem_keys_setDay hmem with h' | h'
      · exact hnot h'
      · exact hpk h'

theorem mem_setDay {m : DayMap} {k : String} {v : List Task} {p : String × List Task}
    (hk : (m.map Prod.fst).Nodup) (h : p ∈ setDay m k v) :
    p = (k, v) ∨ (p ∈ m ∧ p.1 ≠ k) := by
  induction m with
  | nil => left; simpa [setDay] using h
  | cons q rest ih =>
    rcases List.nodup_cons.mp hk with ⟨hnot, hrest⟩
    by_cases hq : q.1 == k
    · have hqk : q.1 = k := by simpa using hq
      simp only [setDay, hq, if_pos, List.mem_cons] at h
      rcases h with h | h
      · left; exact h
      · right
        refine ⟨List.mem_cons_of_mem _ h, ?_⟩
        intro hpk
        exact hnot (by
          rw [hqk, ← hpk]
          exact List.mem_map_of_mem Prod.fst h)
    · have hqk : q.1 ≠ k := by simpa using hq
      simp only [setDay, hq, Bool.false_eq_true, if_neg, not_false_iff, List.mem_cons] at h
      rcases h with h | h
      · right; exact ⟨by simp [h], by rw [h]; exact hqk⟩
      · rcases ih hrest h with h' | h'
        · left; exact h'
        · right; exact ⟨List.mem_cons_of_mem _ h'.1, h'.2⟩

theorem mem_allTasksOf {m : DayMap} {p : String × List Task} {t : Task}
    (hp : p ∈ m) (ht : t ∈ p.2) : t ∈ allTasksOf m := by
  simp only [allTasksOf, List.mem_flatten, List.mem_map]
  exact ⟨p.2, ⟨p, hp, rfl⟩, ht⟩

theorem openCount_allTasksOf {m : DayMap} {k : String}
    (hk : (m.map Prod.fst).Nodup)
    (hz : ∀ p ∈ m, p.1 ≠ k → ∀ t ∈ p.2, openCnt t = 0) :
    openCount (allTasksOf m) = openCount (getDay m k) := by
  induction m with
  | nil => simp [allTasksOf, openCount, getDay_nil]
  | cons p rest ih =>
    rcases List.nodup_cons.mp hk with ⟨hnot, hrest⟩
    have hall : allTasksOf (p :: rest) = p.2 ++ allTasksOf rest := by
      simp [allTasksOf]
    by_cases hp : p.1 == k
    · have hpk : p.1 = k := by simpa using hp
      have hzrest : openCount (allTasksOf rest) = 0 := by
        rw [openCount_eq_zero]
        intro t ht
        simp only [allTasksOf, List.mem_flatten, List.mem_map] at ht
        rcases ht with ⟨l, ⟨q, hq, rfl⟩, htl⟩
        have hqk : q.1 ≠ k := by
          intro hcontra
          exact hnot (by rw [hpk, ← hcontra]; exact List.mem_map_of_mem Prod.fst hq)
        exact hz q (List.mem_cons_of_mem _ hq) hqk t htl
      rw [hall, openCount_append, hzrest, getDay_cons]
      simp [hp]
    · have hpk : p.1 ≠ k := by simpa using hp
      have hzp : openCount p.2 = 0 := by
        rw [openCount_eq_zero]
        exact hz p (List.mem_cons_self p rest) hpk
      rw [hall, openCount_append, hzp, getDay_cons]
      have := ih hrest (fun q hq hqk t htl => hz q (List.mem_cons_of_mem _ hq) hqk t htl)
      simp [hp, this]

theorem map_id_of_preserve {f : Task → Task} (hf : ∀ t, (f t).id = t.id) (l : List Task) :
    (l.map f).map (fun t => t.id) = l.map (fun t => t.id) := by
  rw [List.map_map]
  exact List.map_congr_left (fun t _ => hf t)

theorem closeSessions_of_closed {now : Int} {ss : List Session}
    (h : ∀ c ∈ ss, c.endTime ≠ none) : closeSessions now ss = ss := by
  unfold closeSessions
  conv_rhs => rw [← List.map_id ss]
  apply List.map_congr_left
  intro c hc
  have hcn : c.endTime.isNone = false := by
    rw [Bool.eq_false_iff]
    intro hco
    exact h c hc (Option.isNone_iff_eq_none.mp hco)
  simp [hcn]

theorem filter_closed_nil {ss : List Session}
    (h : ∀ sess ∈ ss, sess.endTime ≠ none) :
    ss.filter (fun sess => sess.endTime.isNone) = [] := by
  rw [List.filter_eq_nil_iff]
  intro sess hs
  rw [Bool.not_eq_true, Bool.eq_false_iff]
  intro hco
  exact h sess hs (Option.isNone_iff_eq_none.mp hco)

theorem closeSessions_append (now : Int) (l1 l2 : List Session) :
    closeSessions now (l1 ++ l2) = closeSessions now l1 ++ closeSessions now l2 :=
  List.map_append _ _ _

theorem closeSessions_cons (now : Int) (c : Session) (l : List Session) :
    closeSessions now (c :: l) =
      (if c.endTime.isNone then { c with endTime := some now } else c) ::
        closeSessions now l := rfl

/-! ### C2: starting another task closes the running one in the same update -/

/-- Claim C2: from a state where the task with id `aid` is Running with an open
session started at `t0`, starting a different task with id `bid` at
`t0 + 5min` produces — in the single resulting state of one
`handleTaskToggle` call — the running task's open session closed as
`{start := t0, end := t0 + 5min}`, a fresh open session `{start := t0 + 5min}`
appended to the target task, and the active-task id switched to `bid`. -/
theorem start_switch_atomic (s : AppState) (aid bid : String) (t0 : Int)
    (hA : s.activeTaskId = some aid) (hT : s.startTime = some t0) (hne : aid ≠ bid) :
    (handleTaskToggle s bid (t0 + 5 * 60 * 1000)).activeTaskId = some bid ∧
    (handleTaskToggle s bid (t0 + 5 * 60 * 1000)).startTime = some (t0 + 5 * 60 * 1000) ∧
    (∀ t ∈ s.tasks, t.id = aid → ∀ cs ds, t.sessions = cs ++ Session.mk t0 none :: ds →
      (∀ c ∈ cs, c.endTime ≠ none) → (∀ c ∈ ds, c.endTime ≠ none) →
      { t with sessions := cs ++ Session.mk t0 (some (t0 + 5 * 60 * 1000)) :: ds } ∈
        (handleTaskToggle s bid (t0 + 5 * 60 * 1000)).tasks) ∧
    (∀ t ∈ s.tasks, t.id = bid → (∀ sess ∈ t.sessions, sess.endTime ≠ none) →
      { t with sessions := t.sessions ++ [Session.mk (t0 + 5 * 60 * 1000) none] } ∈
        (handleTaskToggle s bid (t0 + 5 * 60 * 1000)).tasks) := by
  have hcond : ¬ (s.activeTaskId = some bid) := by
    rw [hA]
    simp [hne]
  have hsome : s.activeTaskId.isSome ∧ s.startTime.isSome := by
    rw [hA, hT]; exact ⟨rfl, rfl⟩
  have htasks : (handleTaskToggle s bid (t0 + 5 * 60 * 1000)).tasks =
      (s.tasks.map (fun t =>
        if some t.id = s.activeTaskId then
          { t with sessions := closeSessions (t0 + 5 * 60 * 1000) t.sessions }
        else t)).map (fun t =>
          if t.id = bid then
            if 0 < (t.sessions.filter (fun sess => sess.endTime.isNone)).length then
              if s.activeTaskId.isSome ∧ s.activeTaskId ≠ some bid then
                { t with sessions :=
                    closeSessions (t0 + 5 * 60 * 1000) t.sessions ++
                      [⟨t0 + 5 * 60 * 1000, none⟩] }
              else t
            else { t with sessions := t.sessions ++ [⟨t0 + 5 * 60 * 1000, none⟩] }
          else t) := by
    unfold handleTaskToggle
    rw [if_neg hcond, if_pos hsome]
  refine ⟨?_, ?_, ?_, ?_⟩
  · unfold handleTaskToggle
    rw [if_neg hcond]
  · unfold handleTaskToggle
    rw [if_neg hcond]
  · intro t ht hid cs ds hss hcs hds
    rw [htasks, List.map_map]
    refine List.mem_map.mpr ⟨t, ht, ?_⟩
    simp only [Function.comp]
    have hclose : closeSessions (t0 + 5 * 60 * 1000) t.sessions =
        cs ++ Session.mk t0 (some (t0 + 5 * 60 * 1000)) :: ds := by
      rw [hss, closeSessions_append, closeSessions_cons,
          closeSessions_of_closed hcs, closeSessions_of_closed hds]
      rfl
    have hstep1 :
        (if some t.id = s.activeTaskId then
          { t with sessions := closeSessions (t0 + 5 * 60 * 1000) t.sessions }
        else t) = { t with sessions := closeSessions (t0 + 5 * 60 * 1000) t.sessions } := by
      rw [if_pos (by rw [hA, hid])]
    rw [hstep1]
    have hstep2 :
        ¬ (({ t with sessions := closeSessions (t0 + 5 * 60 * 1000) t.sessions } : Task).id
            = bid) := by
      show ¬ (t.id = bid)
      rw [hid]; exact hne
    rw [if_neg hstep2, hclose]
  · intro t ht hid hclosed
    rw [htasks, List.map_map]
    refine List.mem_map.mpr ⟨t, ht, ?_⟩
    simp only [Function.comp]
    have hstep1 :
        (if some t.id = s.activeTaskId then
          { t with sessions := closeSessions (t0 + 5 * 60 * 1000) t.sessions }
        else t) = t := by
      rw [if_neg]
      rw [hA, hid]
      simp [Ne.symm hne]
    rw [hstep1, if_pos hid, filter_closed_nil hclosed]
    simp






theorem start_switch_atomic_witness :
    (handleTaskToggle wStart "b" (10 + 5 * 60 * 1000)).activeTaskId = some "b" ∧
    { wTaskA with sessions := [Session.mk 10 (some (10 + 5 * 60 * 1000))] } ∈
      (handleTaskToggle wStart "b" (10 + 5 * 60 * 1000)).tasks ∧
    { wTaskB with sessions := [Session.mk 1 (some 4), Session.mk (10 + 5 * 60 * 1000) none] } ∈
      (handleTaskToggle wStart "b" (10 + 5 * 60 * 1000)).tasks := by
  obtain ⟨h1, _, h3, h4⟩ :=
    start_switch_atomic wStart "a" "b" 10 rfl rfl (by decide)
  refine ⟨h1, ?_, ?_⟩
  · exact h3 wTaskA (by simp [wStart]) rfl [] [] rfl (by simp) (by simp)
  · exact h4 wTaskB (by simp [wStart]) rfl (by intro sess hs; simp [wTaskB] at hs; simp [hs])

/-! ### C3: the auto-stop guard force-stops long-running sessions -/

/-- Claim C3: when the active task's tracked start instant lies `maxDuration`
(9h59m59s) or more before the tick's `now`, one evaluation of the auto-stop
guard closes every open session of that task with `end = now` (index by
index, leaving closed sessions untouched), clears the active marker, and
immediately emits a save whose snapshot is exactly the cleared state. -/
theorem auto_stop_guard (s : AppState) (aid : String) (t0 now : Int)
    (hA : s.activeTaskId = some aid) (hT : s.startTime = some t0)
    (hE : maxDuration ≤ now - t0) :
    (autoStopTick s now).1.activeTaskId = none ∧
    (autoStopTick s now).1.startTime = none ∧
    (∀ t ∈ s.tasks, t.id = aid →
      { t with sessions := closeSessions now t.sessions } ∈ (autoStopTick s now).1.tasks) ∧
    (∀ ss : List Session, ∀ j : Nat, ∀ sess : Session, ss[j]? = some sess →
      (sess.endTime = none → (closeSessions now ss)[j]? = some ⟨sess.start, some now⟩) ∧
      (sess.endTime ≠ none → (closeSessions now ss)[j]? = some sess)) ∧
    (autoStopTick s now).2 = some ⟨(autoStopTick s now).1.tasksByDate, none, none⟩ := by
  have hred : autoStopTick s now =
      ({ s with
          tasks := s.tasks.map (fun t =>
            if t.id = aid then { t with sessions := closeSessions now t.sessions } else t),
          tasksByDate := setDay s.tasksByDate s.selectedDateKey
            (s.tasks.map (fun t =>
              if t.id = aid then { t with sessions := closeSessions now t.sessions } else t)),
          activeTaskId := none, startTime := none },
       some ⟨setDay s.tasksByDate s.selectedDateKey
            (s.tasks.map (fun t =>
              if t.id = aid then { t with sessions := closeSessions now t.sessions } else t)),
          none, none⟩) := by
    unfold autoStopTick
    rw [hA, hT]
    simp only [if_pos hE]
  refine ⟨by rw [hred], by rw [hred], ?_, ?_, by rw [hred]⟩
  · intro t ht hid
    rw [hred]
    exact List.mem_map.mpr ⟨t, ht, by rw [if_pos hid]⟩
  · intro ss j sess hj
    have hmap : (closeSessions now ss)[j]? =
        (ss[j]?).map (fun c => if c.endTime.isNone then { c with endTime := some now } else c) := by
      simp [closeSessions]
    constructor
    · intro hopen
      rw [hmap, hj]
      simp [hopen]
    · intro hclosed
      rcases he : sess.endTime with _ | e
      · exact absurd he hclosed
      · rw [hmap, hj]
        simp [he]


theorem auto_stop_guard_witness :
    (autoStopTick wAuto 36000000).1.activeTaskId = none ∧
    { wTaskA with sessions := [Session.mk 10 (some 36000000)] } ∈
      (autoStopTick wAuto 36000000).1.tasks ∧
    (autoStopTick wAuto 36000000).2 =
      some ⟨(autoStopTick wAuto 36000000).1.tasksByDate, none, none⟩ := by
  obtain ⟨h1, _, h3, _, h5⟩ :=
    auto_stop_guard wAuto "a" 10 36000000 rfl rfl (by decide)
  exact ⟨h1, by simpa using h3 wTaskA (by simp [wAuto]) rfl, h5⟩

/-! ### C7: stray-session handling on start -/

/-- Claim C7, counterexample to the claim as stated: the target task owns a
stray open session (`{start := 5}`) and is not the tracked active task —
here no task is tracked at all (`activeTaskId = none`).  Starting it leaves
the task list unchanged: the stray session is not closed and no fresh session
is appended, contradicting the claim. -/
theorem stray_session_counterexample :
    (handleTaskToggle
        ⟨[("d", [⟨"t", "n", 0, [⟨5, none⟩], "c", 0, none, none, none⟩])],
         [⟨"t", "n", 0, [⟨5, none⟩], "c", 0, none, none, none⟩],
         none, none, "d", "d"⟩
        "t" 100).tasks
      = [⟨"t", "n", 0, [⟨5, none⟩], "c", 0, none, none, none⟩] := by
  decide

/-- Claim C7, amended: when start is invoked on a target task that owns a stray
open session while a *different* task id is tracked as active, the stray open
sessions are closed with `end = now` and a fresh open session `{start := now}`
is appended, in the same update.  (When no task is tracked active, the stray
session is instead left untouched, as the counterexample shows.) -/
theorem stray_session_closed_on_start (s : AppState) (taskId otherId : String) (now : Int)
    (hA : s.activeTaskId = some otherId) (hne : otherId ≠ taskId)
    (hT : s.startTime.isSome) :
    ∀ t ∈ s.tasks, t.id = taskId → 0 < openCnt t →
      { t with sessions := closeSessions now t.sessions ++ [⟨now, none⟩] } ∈
        (handleTaskToggle s taskId now).tasks := by
  intro t ht hid hopen
  have hcond : ¬ (s.activeTaskId = some taskId) := by
    rw [hA]
    simp [hne]
  have hsome : s.activeTaskId.isSome ∧ s.startTime.isSome := by
    rw [hA]; exact ⟨rfl, hT⟩
  have htasks : (handleTaskToggle s taskId now).tasks =
      (s.tasks.map (fun t =>
        if some t.id = s.activeTaskId then
          { t with sessions := closeSessions now t.sessions }
        else t)).map (fun t =>
          if t.id = taskId then
            if 0 < (t.sessions.filter (fun sess => sess.endTime.isNone)).length then
              if s.activeTaskId.isSome ∧ s.activeTaskId ≠ some taskId then
                { t with sessions := closeSessions now t.sessions ++ [⟨now, none⟩] }
              else t
            else { t with sessions := t.sessions ++ [⟨now, none⟩] }
          else t) := by
    unfold handleTaskToggle
    rw [if_neg hcond, if_pos hsome]
  rw [htasks, List.map_map]
  refine List.mem_map.mpr ⟨t, ht, ?_⟩
  simp only [Function.comp]
  have hstep1 :
      (if some t.id = s.activeTaskId then
        { t with sessions := closeSessions now t.sessions }
      else t) = t := by
    rw [if_neg]
    rw [hA, hid]
    simp [Ne.symm hne]
  have hlen : 0 < (t.sessions.filter (fun sess => sess.endTime.isNone)).length := by
    have := hopen
    rwa [openCnt, List.countP_eq_length_filter] at this
  rw [hstep1, if_pos hid, if_pos hlen, if_pos ⟨by rw [hA]; rfl, hcond⟩]


theorem stray_session_closed_on_start_witness :
    { wTaskA with sessions := [Session.mk 10 (some 100), Session.mk 100 none] } ∈
      (handleTaskToggle wStray "a" 100).tasks := by
  have h := stray_session_closed_on_start wStray "a" "b" 100 rfl (by decide) rfl
    wTaskA (by simp [wStray]) rfl (by decide)
  simpa using h

/-! ### C8: manual session edit validation -/

theorem mapSessionsAt_length (tgt : Nat) (a b : Int) (k : Nat) (ss : List Session) :
    (mapSessionsAt tgt a b k ss).length = ss.length := by
  induction ss generalizing k with
  | nil => rfl
  | cons c rest ih => simp [mapSessionsAt, ih]

theorem mapSessionsAt_getElem? (tgt : Nat) (a b : Int) (k j : Nat) (ss : List Session) :
    (mapSessionsAt tgt a b k ss)[j]? =
      if k + j = tgt then
        (ss[j]?).map (fun sess => { sess with start := a, endTime := some b })
      else ss[j]? := by
  induction ss generalizing k j with
  | nil => simp [mapSessionsAt]
  | cons c rest ih =>
    cases j with
    | zero =>
      by_cases hk : k = tgt
      · simp [mapSessionsAt, hk]
      · simp [mapSessionsAt, hk]
    | succ j' =>
      have harith : k + (j' + 1) = (k + 1) + j' := by omega
      simp only [mapSessionsAt, List.getElem?_cons_succ, ih (k + 1) j', harith]

/-- Claim C8: a manual session edit whose resulting `start` is at or after the
resulting `end` is rejected — the handler reports the error and the state is
left fully unchanged — while an edit with `start < end` succeeds and rewrites
exactly the addressed session to the new bounds, leaving all other sessions
in place. -/
theorem save_session_validation (s : AppState) (taskId : String) (i : Nat) (a b : Int) :
    (b ≤ a →
      handleSaveSession s taskId i a b =
        Except.error "終了時間は開始時間より後にしてください" ∧
      applySaveSession s taskId i a b = s) ∧
    (a < b → ∃ s', handleSaveSession s taskId i a b = Except.ok s' ∧
      ∀ t ∈ getDay s.tasksByDate s.selectedDateKey, t.id = taskId →
        ∃ t' ∈ s'.tasks, t'.id = taskId ∧
          t'.sessions.length = t.sessions.length ∧
          (i < t.sessions.length → t'.sessions[i]? = some ⟨a, some b⟩) ∧
          (∀ j, j ≠ i → t'.sessions[j]? = t.sessions[j]?)) := by
  constructor
  · intro hba
    have herr : handleSaveSession s taskId i a b =
        Except.error "終了時間は開始時間より後にしてください" := by
      unfold handleSaveSession
      rw [if_pos hba]
    exact ⟨herr, by unfold applySaveSession; rw [herr]⟩
  · intro hab
    have hok : handleSaveSession s taskId i a b =
        Except.ok { s with
          tasksByDate := setDay s.tasksByDate s.selectedDateKey
            ((getDay s.tasksByDate s.selectedDateKey).map (fun t =>
              if t.id = taskId then
                { t with sessions := mapSessionsAt i a b 0 t.sessions,
                         totalTime := sessionsTotal (mapSessionsAt i a b 0 t.sessions) }
              else t)),
          tasks := (getDay s.tasksByDate s.selectedDateKey).map (fun t =>
            if t.id = taskId then
              { t with sessions := mapSessionsAt i a b 0 t.sessions,
                       totalTime := sessionsTotal (mapSessionsAt i a b 0 t.sessions) }
            else t) } := by
      unfold handleSaveSession
      rw [if_neg (by omega)]
    refine ⟨_, hok, ?_⟩
    intro t ht hid
    refine ⟨_, List.mem_map.mpr ⟨t, ht, rfl⟩, ?_, ?_, ?_, ?_⟩
    · rw [if_pos hid]
      exact hid
    · rw [if_pos hid]
      exact mapSessionsAt_length i a b 0 t.sessions
    · intro hi
      rw [if_pos hid]
      have hx := mapSessionsAt_getElem? i a b 0 i t.sessions
      rw [if_pos (by omega)] at hx
      show (mapSessionsAt i a b 0 t.sessions)[i]? = _
      rw [hx, List.getElem?_eq_getElem hi]
      rfl
    · intro j hj
      rw [if_pos hid]
      have hx := mapSessionsAt_getElem? i a b 0 j t.sessions
      rw [if_neg (by omega)] at hx
      exact hx


theorem save_session_validation_witness :
    applySaveSession wEdit "b" 0 9 3 = wEdit ∧
    (∃ s', handleSaveSession wEdit "b" 0 2 6 = Except.ok s' ∧
      ∃ t' ∈ s'.tasks, t'.id = "b" ∧ t'.sessions[0]? = some ⟨2, some 6⟩) := by
  constructor
  · exact ((save_session_validation wEdit "b" 0 9 3).1 (by decide)).2
  · obtain ⟨s', hok, hall⟩ := (save_session_validation wEdit "b" 0 2 6).2 (by decide)
    obtain ⟨t', ht', hid, _, hat, _⟩ := hall wTaskB (by decide) rfl
    exact ⟨s', hok, t', ht', hid, hat (by decide)⟩

/-! ### C10: totalTime recomputation after edit and delete -/

theorem foldl_sessionsTotal (c : Int) (ss : List Session) :
    ss.foldl (fun sum sess =>
      match sess.endTime with
      | some e => sum + (e - sess.start)
      | none => sum) c = c + closedSum ss := by
  induction ss generalizing c with
  | nil => simp [closedSum]
  | cons sess rest ih =>
    rcases he : sess.endTime with _ | e
    · simp only [List.foldl_cons, he, ih]
      simp [closedSum, List.filter_cons, he]
    · simp only [List.foldl_cons, he, ih]
      simp only [closedSum, List.filter_cons, he, Option.isSome_some, if_pos,
        List.map_cons, List.sum_cons]
      simp [Option.getD]
      ring

theorem sessionsTotal_eq_closedSum (ss : List Session) :
    sessionsTotal ss = closedSum ss := by
  have := foldl_sessionsTotal 0 ss
  simpa [sessionsTotal] using this

/-- Claim C10: after a successful manual session edit, and after a session
delete, the affected task's `totalTime` equals the sum of `end - start` over
exactly its remaining closed sessions (open sessions contributing nothing) —
both operations re-establish `totalTime` as a pure function of the
closed-session list. -/
theorem totalTime_recompute (s : AppState) (taskId : String) (i : Nat) (a b : Int) :
    (∀ s', handleSaveSession s taskId i a b = Except.ok s' →
      ∀ t ∈ s'.tasks, t.id = taskId → t.totalTime = closedSum t.sessions) ∧
    (∀ t ∈ (handleDeleteSession s taskId i).tasks, t.id = taskId →
      t.totalTime = closedSum t.sessions) := by
  constructor
  · intro s' heq t ht hid
    by_cases hba : b ≤ a
    · exfalso
      unfold handleSaveSession at heq
      rw [if_pos hba] at heq
      exact Except.noConfusion heq
    · unfold handleSaveSession at heq
      rw [if_neg hba] at heq
      rw [Except.ok.injEq] at heq
      subst heq
      rcases List.mem_map.mp ht with ⟨u, _, rfl⟩
      by_cases hu : u.id = taskId
      · rw [if_pos hu]
        exact sessionsTotal_eq_closedSum _
      · exfalso
        rw [if_neg hu] at hid
        exact hu hid
  · intro t ht hid
    unfold handleDeleteSession at ht
    rcases List.mem_map.mp ht with ⟨u, _, rfl⟩
    by_cases hu : u.id = taskId
    · rw [if_pos hu]
      exact sessionsTotal_eq_closedSum _
    · exfalso
      rw [if_neg hu] at hid
      exact hu hid

theorem totalTime_recompute_witness :
    handleSaveSession wEdit "b" 0 2 6 = Except.ok (applySaveSession wEdit "b" 0 2 6) ∧
    (∀ t ∈ (applySaveSession wEdit "b" 0 2 6).tasks, t.id = "b" →
      t.totalTime = closedSum t.sessions) ∧
    (∀ t ∈ (handleDeleteSession wEdit "b" 0).tasks, t.id = "b" →
      t.totalTime = closedSum t.sessions) := by
  have h := totalTime_recompute wEdit "b" 0 2 6
  have hok : handleSaveSession wEdit "b" 0 2 6 =
      Except.ok (applySaveSession wEdit "b" 0 2 6) := rfl
  exact ⟨hok, h.1 _ hok, h.2⟩

/-! ### C5: the inbound snapshot diff-gate -/

/-- Claim C5, counterexample to the claim as stated: day `d1` has the same id
set locally (`{a}`) and incoming, with only a field-level difference (the
name), while day `d2` differs.  The gate replaces the WHOLE local index with
the incoming one, so day `d1`'s local task objects are clobbered even though
its id set is unchanged — the replacement is not per-day. -/
theorem diff_gate_counterexample :
    (getDay [("d1", [⟨"a", "x", 0, [], "c", 0, none, none, none⟩]),
             ("d2", [⟨"b", "bb", 0, [], "c", 0, none, none, none⟩])] "d1").map
        (fun t => t.id)
      = (getDay [("d1", [⟨"a", "y", 0, [], "c", 0, none, none, none⟩]),
                 ("d2", [⟨"cc", "cc", 0, [], "c", 0, none, none, none⟩])] "d1").map
          (fun t => t.id) ∧
    getDay (mergeTasksByDate
        [("d1", [⟨"a", "x", 0, [], "c", 0, none, none, none⟩]),
         ("d2", [⟨"b", "bb", 0, [], "c", 0, none, none, none⟩])]
        [("d1", [⟨"a", "y", 0, [], "c", 0, none, none, none⟩]),
         ("d2", [⟨"cc", "cc", 0, [], "c", 0, none, none, none⟩])]) "d1"
      ≠ getDay [("d1", [⟨"a", "x", 0, [], "c", 0, none, none, none⟩]),
                ("d2", [⟨"b", "bb", 0, [], "c", 0, none, none, none⟩])] "d1" := by
  decide

/-- Claim C5, amended: the diff-gate is all-or-nothing per snapshot, not
per-day.  When the day-key counts match and every local day's task count and
id set equal the incoming day's, the whole local index — hence every day D —
is left unchanged even when other fields differ remotely; but a day with an
unchanged id set is not protected individually once any other day trips the
gate (and a day whose task COUNT changed never trips it, by the source's
`return true` on the length mismatch). -/
theorem diff_gate_no_clobber (prev incoming : DayMap)
    (hlen : prev.length = incoming.length)
    (hdays : ∀ p ∈ prev,
      (getDay prev p.1).length = (getDay incoming p.1).length ∧
      (∀ id ∈ (getDay prev p.1).map (fun t => t.id),
         id ∈ (getDay incoming p.1).map (fun t => t.id)) ∧
      (∀ id ∈ (getDay incoming p.1).map (fun t => t.id),
         id ∈ (getDay prev p.1).map (fun t => t.id))) :
    mergeTasksByDate prev incoming = prev ∧
    ∀ dayKey : String, getDay (mergeTasksByDate prev incoming) dayKey = getDay prev dayKey := by
  have hnc : hasChanges prev incoming = false := by
    unfold hasChanges
    rw [Bool.or_eq_false_iff]
    constructor
    · simp [hlen]
    · rw [Bool.not_eq_false']
      rw [List.all_eq_true]
      intro p hp
      obtain ⟨h1, h2, h3⟩ := hdays p hp
      unfold dayUnchangedCheck
      rw [if_neg (by simp [h1])]
      rw [Bool.and_eq_true]
      constructor <;> rw [List.all_eq_true] <;> intro x hx
      · simpa using h2 x hx
      · simpa using h3 x hx
  have hmerge : mergeTasksByDate prev incoming = prev := by
    unfold mergeTasksByDate
    rw [if_neg (by simp [hnc])]
  exact ⟨hmerge, fun dayKey => by rw [hmerge]⟩

theorem diff_gate_no_clobber_witness :
    mergeTasksByDate
        [("d1", [⟨"a", "x", 0, [], "c", 0, none, none, none⟩])]
        [("d1", [⟨"a", "y", 7, [⟨1, some 2⟩], "c", 0, none, none, none⟩])]
      = [("d1", [⟨"a", "x", 0, [], "c", 0, none, none, none⟩])] :=
  (diff_gate_no_clobber
    [("d1", [⟨"a", "x", 0, [], "c", 0, none, none, none⟩])]
    [("d1", [⟨"a", "y", 7, [⟨1, some 2⟩], "c", 0, none, none, none⟩])]
    (by decide) (by decide)).1

/-! ### C6: the event-to-candidate mapping -/

/-- Claim C6, counterexample to the claim as stated: a timed event with
`start = end = 1000` (explicit instants) gets `estimatedTime = none`, not
`end - start`: the source only sets `estimatedTime` when the difference is
strictly positive. -/
theorem event_mapping_counterexample :
    (eventToTask (fun _ _ _ _ => 0) 0 0
        ⟨"z", some "s", some 1000, some 1000, none, none⟩).estimatedTime
      ≠ some (1000 - 1000) := by
  decide

/-- Claim C6, amended: a timed event maps to a candidate with id
`"calendar-" ++ externalId`, empty sessions, the event's instants as
`scheduledStart`/`scheduledEnd`, and `estimatedTime = end - start` when that
difference is positive (unset otherwise); an all-day event maps to the fixed
09:00–17:00 window with exactly 8 hours of `estimatedTime`; importing one
09:00–10:00 event into an empty day yields exactly one task `calendar-e1`
with `estimatedTime` of one hour and no sessions. -/
theorem event_to_task_mapping (mkTime : Nat → Nat → Nat → Nat → Int) (len idx : Nat)
    (e : CalEvent) :
    (∀ sdt edt, e.startDateTime = some sdt → e.endDateTime = some edt →
      (eventToTask mkTime len idx e).id = "calendar-" ++ e.id ∧
      (eventToTask mkTime len idx e).sessions = [] ∧
      (eventToTask mkTime len idx e).scheduledStart = some sdt ∧
      (eventToTask mkTime len idx e).scheduledEnd = some edt ∧
      (eventToTask mkTime len idx e).estimatedTime =
        (if 0 < edt - sdt then some (edt - sdt) else none)) ∧
    (∀ y mo d q, (e.startDateTime = none ∨ e.endDateTime = none) →
      e.startDate = some (y, mo, d) → e.endDate = some q →
      (eventToTask mkTime len idx e).id = "calendar-" ++ e.id ∧
      (eventToTask mkTime len idx e).sessions = [] ∧
      (eventToTask mkTime len idx e).scheduledStart = some (mkTime y mo d 9) ∧
      (eventToTask mkTime len idx e).scheduledEnd = some (mkTime y mo d 17) ∧
      (eventToTask mkTime len idx e).estimatedTime = some (8 * 60 * 60 * 1000)) ∧
    mergeDay mkTime []
        [⟨"e1", some "meeting", some 32400000, some 36000000, none, none⟩]
      = [{ id := "calendar-e1", name := "meeting", totalTime := 0, sessions := [],
           color := "#667eea", order := 0, estimatedTime := some 3600000,
           scheduledStart := some 32400000, scheduledEnd := some 36000000 }] := by
  refine ⟨?_, ?_, ?_⟩
  · intro sdt edt hs he
    unfold eventToTask eventCore
    rw [hs, he]
    refine ⟨rfl, rfl, rfl, rfl, rfl⟩
  · intro y mo d q hnone hs he
    unfold eventToTask eventCore
    rcases hnone with hn | hn
    · rw [hn, hs, he]
      rcases e.endDateTime with _ | edt <;> exact ⟨rfl, rfl, rfl, rfl, rfl⟩
    · rw [hn, hs, he]
      rcases e.startDateTime with _ | sdt <;> exact ⟨rfl, rfl, rfl, rfl, rfl⟩
  · rfl



theorem event_to_task_mapping_witness :
    (eventToTask (fun _ _ _ _ => 0) 0 0
        ⟨"e1", some "meeting", some 32400000, some 36000000, none, none⟩).estimatedTime
      = (if (0:Int) < 36000000 - 32400000 then some (36000000 - 32400000) else none) ∧
    (eventToTask (fun y mo d h => ((y * 10000 + mo * 100 + d) * 100 + h : Int)) 3 1
        wAllDay).estimatedTime = some (8 * 60 * 60 * 1000) := by
  constructor
  · exact ((event_to_task_mapping (fun _ _ _ _ => 0) 0 0
      ⟨"e1", some "meeting", some 32400000, some 36000000, none, none⟩).1
        32400000 36000000 rfl rfl).2.2.2.2
  · exact ((event_to_task_mapping (fun y mo d h => ((y * 10000 + mo * 100 + d) * 100 + h : Int))
      3 1 wAllDay).2.1 2024 1 6 (2024, 1, 6) (Or.inl rfl) rfl rfl).2.2.2.2

/-! ### C9: order assignment of newly appended calendar tasks -/

theorem candTasks_order_ge (mkTime : Nat → Nat → Nat → Nat → Int) (len : Nat) :
    ∀ (es : List CalEvent) (i : Nat), ∀ t ∈ candTasks mkTime len i es, len + i ≤ t.order := by
  intro es
  induction es with
  | nil => intro i t ht; simp [candTasks] at ht
  | cons e rest ih =>
    intro i t ht
    rw [candTasks] at ht
    rcases List.mem_cons.mp ht with ht | ht
    · subst ht
      exact Nat.le_refl _
    · have := ih (i + 1) t ht
      omega

/-- Claim C9, counterexample to the claim as stated: after adding three tasks
and deleting the middle one, the day's orders are `{0, 2}` (a gap), so the
maximum order is `2` while the task count is `2`.  An imported candidate then
gets `order = count + 0 = 2`, which does NOT continue after the current
maximum — it collides with it. -/
theorem new_task_order_counterexample :
    (handleDeleteTask
        (handleAddTask (handleAddTask (handleAddTask (initState "d" "d") "a" "na" "c")
          "b" "nb" "c") "cc" "nc" "c") "b").tasks.map (fun t => (t.id, t.order))
      = [("cc", 0), ("a", 2)] ∧
    (mergeDay (fun _ _ _ _ => 0)
        (handleDeleteTask
          (handleAddTask (handleAddTask (handleAddTask (initState "d" "d") "a" "na" "c")
            "b" "nb" "c") "cc" "nc" "c") "b").tasks
        [⟨"e1", some "m", some 32400000, some 36000000, none, none⟩]).map
        (fun t => (t.id, t.order))
      = [("cc", 0), ("a", 2), ("calendar-e1", 2)] := by
  decide

/-- Claim C9, amended: each appended candidate receives
`order = (number of existing tasks on the day) + (its index among the
candidates)`.  Whenever every existing order is below the task count — in
particular for the gap-free `0..n-1` numbering produced by adds and imports
alone — this continues strictly after the current maximum; a day with gaps
(after a delete) can instead reuse the current maximum. -/
theorem new_task_order (mkTime : Nat → Nat → Nat → Nat → Int) (dateTasks : List Task)
    (events : List CalEvent)
    (h : ∀ t ∈ dateTasks, t.order < dateTasks.length) :
    ∀ nt ∈ mergeDayNew (candTasks mkTime dateTasks.length 0 (events.filter eventFilter))
        (dateTasks.map (fun t => t.id)),
      ∀ t ∈ dateTasks, t.order < nt.order := by
  intro nt hnt t ht
  have hmem : nt ∈ candTasks mkTime dateTasks.length 0 (events.filter eventFilter) :=
    List.mem_of_mem_filter hnt
  have h1 := candTasks_order_ge mkTime dateTasks.length (events.filter eventFilter) 0 nt hmem
  have h2 := h t ht
  omega

/-! ### Helper lemmas for the reachability invariant (C1) -/

theorem getDay_mem {m : DayMap} {k : String} {t : Task} (ht : t ∈ getDay m k) :
    ∃ p ∈ m, p.1 = k ∧ t ∈ p.2 := by
  unfold getDay at ht
  rcases hf : m.find? (fun p => p.1 == k) with _ | p
  · rw [hf] at ht
    simp at ht
  · rw [hf] at ht
    refine ⟨p, List.mem_of_find?_eq_some hf, ?_, ht⟩
    have := List.find?_some hf
    simpa using this

theorem openCnt_close (now : Int) (t : Task) :
    openCnt { t with sessions := closeSessions now t.sessions } = 0 :=
  countP_closeSessions now t.sessions

theorem openCount_map_congr {f : Task → Task} {l : List Task}
    (h : ∀ t ∈ l, openCnt (f t) = openCnt t) : openCount (l.map f) = openCount l := by
  induction l with
  | nil => rfl
  | cons t rest ih =>
    rw [List.map_cons, openCount_cons, openCount_cons, h t (List.mem_cons_self t rest),
        ih (fun u hu => h u (List.mem_cons_of_mem t hu))]

theorem openCount_map_le {f : Task → Task} {l : List Task}
    (h : ∀ t ∈ l, openCnt (f t) ≤ openCnt t) : openCount (l.map f) ≤ openCount l := by
  induction l with
  | nil => exact Nat.le_refl 0
  | cons t rest ih =>
    rw [List.map_cons, openCount_cons, openCount_cons]
    exact Nat.add_le_add (h t (List.mem_cons_self t rest))
      (ih (fun u hu => h u (List.mem_cons_of_mem t hu)))

theorem openCount_filter_le (p : Task → Bool) (l : List Task) :
    openCount (l.filter p) ≤ openCount l := by
  induction l with
  | nil => exact Nat.le_refl 0
  | cons t rest ih =>
    rw [List.filter_cons]
    by_cases hp : p t
    · rw [if_pos hp, openCount_cons, openCount_cons]
      exact Nat.add_le_add (Nat.le_refl _) ih
    · rw [if_neg hp, openCount_cons]
      omega

/-- Opening one fresh session on the (unique) task with id `tid`, starting
from a list with no open sessions, yields at most one open session. -/
theorem openCount_start_map {l : List Task} {tid : String} {g : Task → Task}
    (hg_ne : ∀ t, t.id ≠ tid → g t = t)
    (hg_eq : ∀ t ∈ l, t.id = tid → openCnt (g t) ≤ 1)
    (hz : ∀ t ∈ l, openCnt t = 0)
    (hnd : (l.map (fun t => t.id)).Nodup) :
    openCount (l.map g) ≤ 1 := by
  induction l with
  | nil => exact Nat.le_of_lt Nat.zero_lt_one
  | cons t rest ih =>
    rw [List.map_cons] at hnd
    rcases List.nodup_cons.mp hnd with ⟨hnotin, hndrest⟩
    rw [List.map_cons, openCount_cons]
    by_cases hid : t.id = tid
    · have hrest0 : openCount (rest.map g) = 0 := by
        rw [openCount_eq_zero]
        intro u hu
        rcases List.mem_map.mp hu with ⟨u0, hu0, rfl⟩
        have hu0ne : u0.id ≠ tid := by
          intro hcontra
          exact hnotin (by rw [hid, ← hcontra]; exact List.mem_map_of_mem _ hu0)
        rw [hg_ne u0 hu0ne]
        exact hz u0 (List.mem_cons_of_mem t hu0)
      rw [hrest0]
      have := hg_eq t (List.mem_cons_self t rest) hid
      omega
    · rw [hg_ne t hid, hz t (List.mem_cons_self t rest)]
      have := ih (fun u hu hid' => hg_eq u (List.mem_cons_of_mem t hu) hid')
        (fun u hu => hz u (List.mem_cons_of_mem t hu)) hndrest
      omega

theorem countP_mapSessionsAt (tgt : Nat) (a b : Int) :
    ∀ (k : Nat) (ss : List Session),
      (mapSessionsAt tgt a b k ss).countP (fun sess => sess.endTime.isNone) ≤
        ss.countP (fun sess => sess.endTime.isNone) := by
  intro k ss
  induction ss generalizing k with
  | nil => exact Nat.le_refl 0
  | cons c rest ih =>
    rw [mapSessionsAt, List.countP_cons, List.countP_cons]
    by_cases hk : k = tgt
    · rw [if_pos hk]
      have h1 := ih (k + 1)
      have h2 : (({ c with start := a, endTime := some b } : Session).endTime.isNone) = false :=
        rfl
      rw [h2]
      simp only [Bool.false_eq_true, if_false]
      omega
    · rw [if_neg hk]
      have := ih (k + 1)
      omega

theorem countP_removeSessionAt (tgt : Nat) :
    ∀ (k : Nat) (ss : List Session),
      (removeSessionAt tgt k ss).countP (fun sess => sess.endTime.isNone) ≤
        ss.countP (fun sess => sess.endTime.isNone) := by
  intro k ss
  induction ss generalizing k with
  | nil => exact Nat.le_refl 0
  | cons c rest ih =>
    rw [removeSessionAt, List.countP_cons]
    by_cases hk : k = tgt
    · rw [if_pos hk]
      have := ih (k + 1)
      omega
    · rw [if_neg hk, List.countP_cons]
      have := ih (k + 1)
      omega

theorem Inv.owner_tasks {s : AppState} (hInv : Inv s) :
    ∀ t ∈ s.tasks, 0 < openCnt t → s.activeTaskId = some t.id := by
  obtain ⟨hsync, _, _, howner, _, _, _⟩ := hInv
  intro t ht hop
  rw [hsync] at ht
  obtain ⟨p, hp, _, htp⟩ := getDay_mem ht
  exact howner p hp t htp hop

theorem Inv.open_tasks_le {s : AppState} (hInv : Inv s) : openCount s.tasks ≤ 1 := by
  obtain ⟨hsync, hkeys, hbound, _, _, hlocal, _⟩ := hInv
  rw [hsync, ← openCount_allTasksOf hkeys hlocal]
  exact hbound

/-- Master step: every handler that rewrites the selected day's list to `v`
(and mirrors it into `tasksByDate`) preserves the invariant, given the
list-level facts about `v`. -/
theorem Inv_update_selected {s : AppState} (hInv : Inv s) {v : List Task}
    {A : Option String} {T : Option Int}
    (hbound' : openCount v ≤ 1)
    (howner' : ∀ t ∈ v, 0 < openCnt t → A = some t.id)
    (hstrt' : A.isSome → T.isSome)
    (hnd' : (v.map fun t => t.id).Nodup) :
    Inv { s with
          tasks := v,
          tasksByDate := setDay s.tasksByDate s.selectedDateKey v,
          activeTaskId := A,
          startTime := T } := by
  obtain ⟨hsync, hkeys, hbound, howner, hstrt, hlocal, hnd⟩ := hInv
  have hkeys' := setDay_keys_nodup s.selectedDateKey v hkeys
  have hlocal' : ∀ p ∈ setDay s.tasksByDate s.selectedDateKey v,
      p.1 ≠ s.selectedDateKey → ∀ t ∈ p.2, openCnt t = 0 := by
    intro p hp hpne t htp
    rcases mem_setDay hkeys hp with hp' | ⟨hp', hpk⟩
    · exact absurd (by rw [hp']) hpne
    · exact hlocal p hp' hpne t htp
  refine ⟨?_, hkeys', ?_, ?_, hstrt', hlocal', hnd'⟩
  · exact (getDay_setDay_self s.tasksByDate s.selectedDateKey v).symm
  · rw [openCount_allTasksOf hkeys' hlocal', getDay_setDay_self]
    exact hbound'
  · intro p hp t htp hop
    rcases mem_setDay hkeys hp with hp' | ⟨hp', hpk⟩
    · have : t ∈ v := by rw [hp'] at htp; exact htp
      exact howner' t this hop
    · exact absurd (hlocal p hp' hpk t htp) (by omega)

/-- Master step for updates that rewrite a non-selected day to an open-free
list `v`, leaving the cached tasks and markers untouched. -/
theorem Inv_update_other {s : AppState} (hInv : Inv s) {dk : String} {v : List Task}
    (hne : dk ≠ s.selectedDateKey) (hz : openCount v = 0) :
    Inv { s with tasksByDate := setDay s.tasksByDate dk v } := by
  obtain ⟨hsync, hkeys, hbound, howner, hstrt, hlocal, hnd⟩ := hInv
  have hkeys' := setDay_keys_nodup dk v hkeys
  have hlocal' : ∀ p ∈ setDay s.tasksByDate dk v,
      p.1 ≠ s.selectedDateKey → ∀ t ∈ p.2, openCnt t = 0 := by
    intro p hp hpne t htp
    rcases mem_setDay hkeys hp with hp' | ⟨hp', hpk⟩
    · have : t ∈ v := by rw [hp'] at htp; exact htp
      exact openCount_eq_zero.mp hz t this
    · exact hlocal p hp' hpne t htp
  refine ⟨?_, hkeys', ?_, ?_, hstrt, hlocal', hnd⟩
  · rw [hsync, getDay_setDay_ne _ _ _ _ (Ne.symm hne)]
  · rw [openCount_allTasksOf hkeys' hlocal', getDay_setDay_ne _ _ _ _ (Ne.symm hne),
        ← hsync]
    exact Inv.open_tasks_le ⟨hsync, hkeys, hbound, howner, hstrt, hlocal, hnd⟩
  · intro p hp t htp hop
    rcases mem_setDay hkeys hp with hp' | ⟨hp', hpk⟩
    · have : t ∈ v := by rw [hp'] at htp; exact htp
      exact absurd (openCount_eq_zero.mp hz t this) (by omega)
    · exact howner p hp' t htp hop

theorem Inv_init (sel today : String) : Inv (initState sel today) := by
  refine ⟨rfl, List.nodup_nil, ?_, ?_, ?_, ?_, List.nodup_nil⟩
  · exact Nat.le_of_lt Nat.zero_lt_one
  · intro p hp
    simp [initState] at hp
  · intro h
    simp [initState] at h
  · intro p hp
    simp [initState] at hp

theorem Inv_add {s : AppState} (hInv : Inv s) (id name color : String)
    (hfresh : id ∉ s.tasks.map (fun t => t.id)) :
    Inv (handleAddTask s id name color) := by
  have hform : handleAddTask s id name color =
      { s with
          tasks := (⟨id, name, 0, [], color, 0, none, none, none⟩ : Task) ::
            s.tasks.map (fun t => { t with order := t.order + 1 }),
          tasksByDate := setDay s.tasksByDate s.selectedDateKey
            ((⟨id, name, 0, [], color, 0, none, none, none⟩ : Task) ::
              s.tasks.map (fun t => { t with order := t.order + 1 })),
          activeTaskId := s.activeTaskId, startTime := s.startTime } := rfl
  rw [hform]
  have hbump : openCount (s.tasks.map (fun t => { t with order := t.order + 1 })) =
      openCount s.tasks := openCount_map_congr (fun t _ => rfl)
  refine Inv_update_selected hInv ?_ ?_ hInv.2.2.2.2.1 ?_
  · rw [openCount_cons, hbump]
    have h0 : openCnt (⟨id, name, 0, [], color, 0, none, none, none⟩ : Task) = 0 := rfl
    have := Inv.open_tasks_le hInv
    omega
  · intro t ht hop
    rcases List.mem_cons.mp ht with ht | ht
    · subst ht
      exact absurd hop (by simp [openCnt, List.countP_nil])
    · rcases List.mem_map.mp ht with ⟨u, hu, rfl⟩
      have : openCnt u = openCnt { u with order := u.order + 1 } := rfl
      exact Inv.owner_tasks hInv u hu (by omega)
  · rw [List.map_cons]
    have hids : ((s.tasks.map (fun t => { t with order := t.order + 1 })).map
        (fun t => t.id)) = s.tasks.map (fun t => t.id) :=
      @map_id_of_preserve (fun t => { t with order := t.order + 1 }) (fun t => rfl) s.tasks
    rw [hids]
    exact List.nodup_cons.mpr ⟨hfresh, hInv.2.2.2.2.2.2⟩

theorem stopTask_id (taskId : String) (now : Int) (t : Task) :
    (stopTask taskId now t).id = t.id := by
  unfold stopTask
  by_cases h : t.id = taskId
  · rw [if_pos h]
  · rw [if_neg h]

theorem closeActive_id (s : AppState) (now : Int) (t : Task) :
    (closeActive s now t).id = t.id := by
  unfold closeActive
  by_cases h : some t.id = s.activeTaskId
  · rw [if_pos h]
  · rw [if_neg h]

theorem startTarget_id (s : AppState) (taskId : String) (now : Int) (t : Task) :
    (startTarget s taskId now t).id = t.id := by
  unfold startTarget
  by_cases h1 : t.id = taskId
  · rw [if_pos h1]
    by_cases h2 : 0 < (t.sessions.filter (fun sess => sess.endTime.isNone)).length
    · rw [if_pos h2]
      by_cases h3 : s.activeTaskId.isSome ∧ s.activeTaskId ≠ some taskId
      · rw [if_pos h3]
      · rw [if_neg h3]
    · rw [if_neg h2]
  · rw [if_neg h1]

theorem startTarget_ne (s : AppState) (taskId : String) (now : Int) (t : Task)
    (h : t.id ≠ taskId) : startTarget s taskId now t = t := by
  unfold startTarget
  rw [if_neg h]

theorem startTarget_openCnt {s : AppState} {taskId : String} {now : Int} {t : Task}
    (hid : t.id = taskId) (h0 : openCnt t = 0) :
    openCnt (startTarget s taskId now t) = 1 := by
  unfold startTarget
  rw [if_pos hid]
  have hfl : (t.sessions.filter (fun sess => sess.endTime.isNone)).length = 0 := by
    rw [← List.countP_eq_length_filter]
    exact h0
  rw [if_neg (by rw [hfl]; exact Nat.lt_irrefl 0)]
  show (t.sessions ++ [(⟨now, none⟩ : Session)]).countP (fun sess => sess.endTime.isNone) = 1
  rw [List.countP_append]
  have h1 : openCnt t = t.sessions.countP (fun sess => sess.endTime.isNone) := rfl
  have h2 : ([(⟨now, none⟩ : Session)]).countP (fun sess => sess.endTime.isNone) = 1 := rfl
  omega

theorem openCount_stop_map {s : AppState} (hInv : Inv s) {tid : String} (now : Int)
    (hact : s.activeTaskId = some tid) :
    openCount (s.tasks.map (stopTask tid now)) = 0 := by
  rw [openCount_eq_zero]
  intro t' ht'
  rcases List.mem_map.mp ht' with ⟨t, ht, rfl⟩
  unfold stopTask
  by_cases hid : t.id = tid
  · rw [if_pos hid]
    exact openCnt_close now t
  · rw [if_neg hid]
    rcases Nat.eq_zero_or_pos (openCnt t) with h0 | h0
    · exact h0
    · have hx := Inv.owner_tasks hInv t ht h0
      rw [hact] at hx
      exact absurd (Option.some.inj hx).symm hid

theorem Inv_toggle {s : AppState} (hInv : Inv s) (taskId : String) (now : Int) :
    Inv (handleTaskToggle s taskId now) := by
  by_cases hstop : s.activeTaskId = some taskId
  · have hform : handleTaskToggle s taskId now =
        { s with
          tasks := s.tasks.map (stopTask taskId now),
          tasksByDate := setDay s.tasksByDate s.selectedDateKey
            (s.tasks.map (stopTask taskId now)),
          activeTaskId := none,
          startTime := none } := by
      unfold handleTaskToggle stopTask
      rw [if_pos hstop]
    rw [hform]
    have hz := openCount_stop_map hInv now hstop
    refine Inv_update_selected hInv (by omega) ?_ (by simp) ?_
    · intro t ht hop
      exact absurd (openCount_eq_zero.mp hz t ht) (by omega)
    · have hids : ((s.tasks.map (stopTask taskId now)).map (fun t => t.id)) =
          s.tasks.map (fun t => t.id) :=
        map_id_of_preserve (stopTask_id taskId now) _
      rw [hids]
      exact hInv.2.2.2.2.2.2
  · have hform : handleTaskToggle s taskId now =
        { s with
          tasks := startTasks s taskId now,
          tasksByDate := setDay s.tasksByDate s.selectedDateKey (startTasks s taskId now),
          activeTaskId := some taskId,
          startTime := some now } := by
      unfold handleTaskToggle startTasks closeActive startTarget
      rw [if_neg hstop]
    rw [hform]
    have hT1z : openCount (if s.activeTaskId.isSome ∧ s.startTime.isSome
        then s.tasks.map (closeActive s now) else s.tasks) = 0 := by
      by_cases hcond : s.activeTaskId.isSome ∧ s.startTime.isSome
      · rw [if_pos hcond, openCount_eq_zero]
        intro t' ht'
        rcases List.mem_map.mp ht' with ⟨t, ht, rfl⟩
        unfold closeActive
        by_cases hti : some t.id = s.activeTaskId
        · rw [if_pos hti]
          exact openCnt_close now t
        · rw [if_neg hti]
          rcases Nat.eq_zero_or_pos (openCnt t) with h0 | h0
          · exact h0
          · exact absurd (Inv.owner_tasks hInv t ht h0).symm hti
      · rw [if_neg hcond, openCount_eq_zero]
        intro t ht
        rcases Nat.eq_zero_or_pos (openCnt t) with h0 | h0
        · exact h0
        · have hact := Inv.owner_tasks hInv t ht h0
          have h1 : s.activeTaskId.isSome := by rw [hact]; rfl
          exact absurd ⟨h1, hInv.2.2.2.2.1 h1⟩ hcond
    have hT1ids : ((if s.activeTaskId.isSome ∧ s.startTime.isSome
        then s.tasks.map (closeActive s now) else s.tasks).map (fun t => t.id)) =
        s.tasks.map (fun t => t.id) := by
      by_cases hcond : s.activeTaskId.isSome ∧ s.startTime.isSome
      · rw [if_pos hcond]
        exact map_id_of_preserve (closeActive_id s now) _
      · rw [if_neg hcond]
    refine Inv_update_selected hInv ?_ ?_ (by simp) ?_
    · unfold startTasks
      refine openCount_start_map (startTarget_ne s taskId now) ?_
        (openCount_eq_zero.mp hT1z) ?_
      · intro t _ hid
        have h0 : openCnt t = 0 := by
          rcases Nat.eq_zero_or_pos (openCnt t) with h0 | h0
          · exact h0
          · exact absurd (openCount_eq_zero.mp hT1z t (by assumption)) (by omega)
        rw [startTarget_openCnt hid h0]
      · rw [hT1ids]
        exact hInv.2.2.2.2.2.2
    · intro t' ht' hop
      unfold startTasks at ht'
      rcases List.mem_map.mp ht' with ⟨t, ht, rfl⟩
      rw [startTarget_id]
      by_cases hid : t.id = taskId
      · rw [hid]
      · rw [startTarget_ne s taskId now t hid] at hop
        exact absurd (openCount_eq_zero.mp hT1z t ht) (by omega)
    · unfold startTasks
      have h1 : (((if s.activeTaskId.isSome ∧ s.startTime.isSome
          then s.tasks.map (closeActive s now) else s.tasks).map
            (startTarget s taskId now)).map (fun t => t.id)) =
          ((if s.activeTaskId.isSome ∧ s.startTime.isSome
          then s.tasks.map (closeActive s now) else s.tasks).map (fun t => t.id)) :=
        map_id_of_preserve (startTarget_id s taskId now) _
      rw [h1, hT1ids]
      exact hInv.2.2.2.2.2.2

theorem Inv_autoStop {s : AppState} (hInv : Inv s) (now : Int) :
    Inv (autoStopTick s now).1 := by
  rcases ha : s.activeTaskId with _ | aid
  · have hform : autoStopTick s now = (s, none) := by
      simp only [autoStopTick, ha]
    rw [hform]
    exact hInv
  · rcases ht : s.startTime with _ | t0
    · have hform : autoStopTick s now = (s, none) := by
        simp only [autoStopTick, ha, ht]
      rw [hform]
      exact hInv
    · by_cases hd : maxDuration ≤ now - t0
      · have hform : (autoStopTick s now).1 =
            { s with
              tasks := s.tasks.map (stopTask aid now),
              tasksByDate := setDay s.tasksByDate s.selectedDateKey
                (s.tasks.map (stopTask aid now)),
              activeTaskId := none,
              startTime := none } := by
          simp only [autoStopTick, ha, ht]
          rw [if_pos hd]
          rfl
        rw [hform]
        have hz := openCount_stop_map hInv now ha
        refine Inv_update_selected hInv (by omega) ?_ (by simp) ?_
        · intro t htm hop
          exact absurd (openCount_eq_zero.mp hz t htm) (by omega)
        · have hids : ((s.tasks.map (stopTask aid now)).map (fun t => t.id)) =
              s.tasks.map (fun t => t.id) :=
            map_id_of_preserve (stopTask_id aid now) _
          rw [hids]
          exact hInv.2.2.2.2.2.2
      · have hform : autoStopTick s now = (s, none) := by
          simp only [autoStopTick, ha, ht]
          rw [if_neg hd]
        rw [hform]
        exact hInv

theorem Inv_deleteTask {s : AppState} (hInv : Inv s) (taskId : String) :
    Inv (handleDeleteTask s taskId) := by
  have hle : openCount (s.tasks.filter (fun t => !(t.id == taskId))) ≤ openCount s.tasks :=
    openCount_filter_le _ _
  have hnd' : ((s.tasks.filter (fun t => !(t.id == taskId))).map (fun t => t.id)).Nodup :=
    hInv.2.2.2.2.2.2.sublist ((List.filter_sublist s.tasks).map _)
  by_cases hact : s.activeTaskId = some taskId
  · have hform : handleDeleteTask s taskId =
        { s with
          tasks := s.tasks.filter (fun t => !(t.id == taskId)),
          tasksByDate := setDay s.tasksByDate s.selectedDateKey
            (s.tasks.filter (fun t => !(t.id == taskId))),
          activeTaskId := none,
          startTime := none } := by
      unfold handleDeleteTask
      rw [if_pos hact]
    rw [hform]
    have hz : openCount (s.tasks.filter (fun t => !(t.id == taskId))) = 0 := by
      rw [openCount_eq_zero]
      intro t ht
      have hmem := List.mem_filter.mp ht
      have htne : t.id ≠ taskId := by
        have h2 := hmem.2
        simpa using h2
      rcases Nat.eq_zero_or_pos (openCnt t) with h0 | h0
      · exact h0
      · have hx := Inv.owner_tasks hInv t hmem.1 h0
        rw [hact] at hx
        exact absurd (Option.some.inj hx).symm htne
    refine Inv_update_selected hInv (by omega) ?_ (by simp) hnd'
    intro t ht hop
    exact absurd (openCount_eq_zero.mp hz t ht) (by omega)
  · have hform : handleDeleteTask s taskId =
        { s with
          tasks := s.tasks.filter (fun t => !(t.id == taskId)),
          tasksByDate := setDay s.tasksByDate s.selectedDateKey
            (s.tasks.filter (fun t => !(t.id == taskId))),
          activeTaskId := s.activeTaskId,
          startTime := s.startTime } := by
      unfold handleDeleteTask
      rw [if_neg hact]
    rw [hform]
    refine Inv_update_selected hInv ?_ ?_ hInv.2.2.2.2.1 hnd'
    · have := Inv.open_tasks_le hInv
      omega
    · intro t ht hop
      exact Inv.owner_tasks hInv t (List.mem_filter.mp ht).1 hop

theorem saveTask_id (taskId : String) (i : Nat) (a b : Int) (t : Task) :
    (saveTask taskId i a b t).id = t.id := by
  unfold saveTask
  by_cases h : t.id = taskId
  · rw [if_pos h]
  · rw [if_neg h]

theorem saveTask_openCnt_le (taskId : String) (i : Nat) (a b : Int) (t : Task) :
    openCnt (saveTask taskId i a b t) ≤ openCnt t := by
  unfold saveTask
  by_cases h : t.id = taskId
  · rw [if_pos h]
    exact countP_mapSessionsAt i a b 0 t.sessions
  · rw [if_neg h]

theorem deleteSessionTask_id (taskId : String) (i : Nat) (t : Task) :
    (deleteSessionTask taskId i t).id = t.id := by
  unfold deleteSessionTask
  by_cases h : t.id = taskId
  · rw [if_pos h]
  · rw [if_neg h]

theorem deleteSessionTask_openCnt_le (taskId : String) (i : Nat) (t : Task) :
    openCnt (deleteSessionTask taskId i t) ≤ openCnt t := by
  unfold deleteSessionTask
  by_cases h : t.id = taskId
  · rw [if_pos h]
    exact countP_removeSessionAt i 0 t.sessions
  · rw [if_neg h]

theorem Inv_saveSession {s : AppState} (hInv : Inv s) (taskId : String) (i : Nat)
    (a b : Int) : Inv (applySaveSession s taskId i a b) := by
  by_cases hba : b ≤ a
  · have hform : applySaveSession s taskId i a b = s := by
      unfold applySaveSession handleSaveSession
      rw [if_pos hba]
    rw [hform]
    exact hInv
  · have hform : applySaveSession s taskId i a b =
        { s with
          tasks := (getDay s.tasksByDate s.selectedDateKey).map (saveTask taskId i a b),
          tasksByDate := setDay s.tasksByDate s.selectedDateKey
            ((getDay s.tasksByDate s.selectedDateKey).map (saveTask taskId i a b)),
          activeTaskId := s.activeTaskId,
          startTime := s.startTime } := by
      unfold applySaveSession handleSaveSession saveTask
      rw [if_neg hba]
    rw [hform, ← hInv.1]
    refine Inv_update_selected hInv ?_ ?_ hInv.2.2.2.2.1 ?_
    · have h1 : openCount (s.tasks.map (saveTask taskId i a b)) ≤ openCount s.tasks :=
        openCount_map_le (fun t _ => saveTask_openCnt_le taskId i a b t)
      have h2 := Inv.open_tasks_le hInv
      omega
    · intro t' ht' hop
      rcases List.mem_map.mp ht' with ⟨t, ht, rfl⟩
      rw [saveTask_id]
      exact Inv.owner_tasks hInv t ht
        (Nat.lt_of_lt_of_le hop (saveTask_openCnt_le taskId i a b t))
    · have hids : ((s.tasks.map (saveTask taskId i a b)).map (fun t => t.id)) =
          s.tasks.map (fun t => t.id) :=
        map_id_of_preserve (saveTask_id taskId i a b) _
      rw [hids]
      exact hInv.2.2.2.2.2.2

theorem Inv_deleteSession {s : AppState} (hInv : Inv s) (taskId : String) (i : Nat) :
    Inv (handleDeleteSession s taskId i) := by
  have hform : handleDeleteSession s taskId i =
      { s with
        tasks := (getDay s.tasksByDate s.selectedDateKey).map (deleteSessionTask taskId i),
        tasksByDate := setDay s.tasksByDate s.selectedDateKey
          ((getDay s.tasksByDate s.selectedDateKey).map (deleteSessionTask taskId i)),
        activeTaskId := s.activeTaskId,
        startTime := s.startTime } := by
    unfold handleDeleteSession deleteSessionTask
    rfl
  rw [hform, ← hInv.1]
  refine Inv_update_selected hInv ?_ ?_ hInv.2.2.2.2.1 ?_
  · have h1 : openCount (s.tasks.map (deleteSessionTask taskId i)) ≤ openCount s.tasks :=
      openCount_map_le (fun t _ => deleteSessionTask_openCnt_le taskId i t)
    have h2 := Inv.open_tasks_le hInv
    omega
  · intro t' ht' hop
    rcases List.mem_map.mp ht' with ⟨t, ht, rfl⟩
    rw [deleteSessionTask_id]
    exact Inv.owner_tasks hInv t ht
      (Nat.lt_of_lt_of_le hop (deleteSessionTask_openCnt_le taskId i t))
  · have hids : ((s.tasks.map (deleteSessionTask taskId i)).map (fun t => t.id)) =
        s.tasks.map (fun t => t.id) :=
      map_id_of_preserve (deleteSessionTask_id taskId i) _
    rw [hids]
    exact hInv.2.2.2.2.2.2

/-! ### C4: idempotence of the calendar merge -/



theorem candTasks_map_idSched (mkTime : Nat → Nat → Nat → Nat → Int) (len1 len2 : Nat) :
    ∀ (es : List CalEvent) (i : Nat),
      (candTasks mkTime len1 i es).map (fun t => (t.id, schedOf t)) =
        (candTasks mkTime len2 i es).map (fun t => (t.id, schedOf t)) := by
  intro es
  induction es with
  | nil => intro i; rfl
  | cons e rest ih =>
    intro i
    rw [candTasks, candTasks, List.map_cons, List.map_cons, ih (i + 1)]
    rfl

theorem find?_congr_of_map_eq {l1 l2 : List Task}
    (h : l1.map (fun t => (t.id, schedOf t)) = l2.map (fun t => (t.id, schedOf t)))
    (x : String) :
    Option.map (fun t => (t.id, schedOf t)) (l1.find? (fun ct => ct.id == x)) =
      Option.map (fun t => (t.id, schedOf t)) (l2.find? (fun ct => ct.id == x)) := by
  induction l1 generalizing l2 with
  | nil =>
    cases l2 with
    | nil => rfl
    | cons b l2' => simp at h
  | cons a l1' ih =>
    cases l2 with
    | nil => simp at h
    | cons b l2' =>
      simp only [List.map_cons, List.cons.injEq] at h
      obtain ⟨hab, hrest⟩ := h
      have hid : a.id = b.id := congrArg Prod.fst hab
      by_cases hx : (a.id == x)
      · have e1 : List.find? (fun ct => ct.id == x) (a :: l1') = some a :=
          List.find?_cons_of_pos _ hx
        have e2 : List.find? (fun ct => ct.id == x) (b :: l2') = some b :=
          List.find?_cons_of_pos _ (by rw [← hid]; exact hx)
        rw [e1, e2]
        exact congrArg some hab
      · have e1 : List.find? (fun ct => ct.id == x) (a :: l1') =
            List.find? (fun ct => ct.id == x) l1' := List.find?_cons_of_neg _ hx
        have e2 : List.find? (fun ct => ct.id == x) (b :: l2') =
            List.find? (fun ct => ct.id == x) l2' :=
          List.find?_cons_of_neg _ (by rw [← hid]; exact hx)
        rw [e1, e2]
        exact ih hrest

theorem updateFromCandidates_of_find_none {C : List Task} {t : Task}
    (hf : C.find? (fun ct => ct.id == t.id) = none) :
    updateFromCandidates C t = t := by
  unfold updateFromCandidates
  by_cases hp : "calendar-".data.isPrefixOf t.id.data
  · rw [if_pos hp, hf]
  · rw [if_neg hp]

theorem updateFromCandidates_of_not_calMatch {C : List Task} {t : Task}
    (hp : ¬ ("calendar-".data.isPrefixOf t.id.data = true)) :
    updateFromCandidates C t = t := by
  unfold updateFromCandidates
  rw [if_neg hp]

theorem updateFromCandidates_of_find_some {C : List Task} {t ct : Task}
    (hp : "calendar-".data.isPrefixOf t.id.data = true)
    (hf : C.find? (fun c => c.id == t.id) = some ct) :
    updateFromCandidates C t =
      { t with scheduledStart := ct.scheduledStart, scheduledEnd := ct.scheduledEnd,
               estimatedTime := ct.estimatedTime } := by
  unfold updateFromCandidates
  rw [if_pos hp, hf]

theorem updateFromCandidates_id (C : List Task) (t : Task) :
    (updateFromCandidates C t).id = t.id := by
  by_cases hp : "calendar-".data.isPrefixOf t.id.data
  · rcases hf : C.find? (fun c => c.id == t.id) with _ | ct
    · rw [updateFromCandidates_of_find_none hf]
    · rw [updateFromCandidates_of_find_some hp hf]
  · rw [updateFromCandidates_of_not_calMatch hp]

theorem updateFromCandidates_sessions (C : List Task) (t : Task) :
    (updateFromCandidates C t).sessions = t.sessions := by
  by_cases hp : "calendar-".data.isPrefixOf t.id.data
  · rcases hf : C.find? (fun c => c.id == t.id) with _ | ct
    · rw [updateFromCandidates_of_find_none hf]
    · rw [updateFromCandidates_of_find_some hp hf]
  · rw [updateFromCandidates_of_not_calMatch hp]

theorem updateFromCandidates_congr {C1 C2 : List Task}
    (h : C1.map (fun t => (t.id, schedOf t)) = C2.map (fun t => (t.id, schedOf t)))
    (t : Task) : updateFromCandidates C1 t = updateFromCandidates C2 t := by
  have hfind := find?_congr_of_map_eq h t.id
  rcases hf1 : C1.find? (fun c => c.id == t.id) with _ | c1
  · rcases hf2 : C2.find? (fun c => c.id == t.id) with _ | c2
    · rw [updateFromCandidates_of_find_none hf1, updateFromCandidates_of_find_none hf2]
    · rw [hf1, hf2] at hfind
      simp [Option.map] at hfind
  · rcases hf2 : C2.find? (fun c => c.id == t.id) with _ | c2
    · rw [hf1, hf2] at hfind
      simp [Option.map] at hfind
    · rw [hf1, hf2] at hfind
      simp only [Option.map] at hfind
      have hpair := Option.some.inj hfind
      have hsched : schedOf c1 = schedOf c2 := congrArg Prod.snd hpair
      by_cases hp : "calendar-".data.isPrefixOf t.id.data
      · rw [updateFromCandidates_of_find_some hp hf1,
            updateFromCandidates_of_find_some hp hf2]
        have h1 : c1.scheduledStart = c2.scheduledStart := congrArg (fun p => p.1) hsched
        have h2 : c1.scheduledEnd = c2.scheduledEnd := congrArg (fun p => p.2.1) hsched
        have h3 : c1.estimatedTime = c2.estimatedTime := congrArg (fun p => p.2.2) hsched
        rw [h1, h2, h3]
      · rw [updateFromCandidates_of_not_calMatch hp, updateFromCandidates_of_not_calMatch hp]

theorem updateFromCandidates_idem (C : List Task) (t : Task) :
    updateFromCandidates C (updateFromCandidates C t) = updateFromCandidates C t := by
  by_cases hp : "calendar-".data.isPrefixOf t.id.data
  · rcases hf : C.find? (fun c => c.id == t.id) with _ | ct
    · have ht : updateFromCandidates C t = t := updateFromCandidates_of_find_none hf
      rw [ht, ht]
    · have ht := updateFromCandidates_of_find_some hp hf
      rw [ht]
      have hp' : "calendar-".data.isPrefixOf
          ({ t with scheduledStart := ct.scheduledStart, scheduledEnd := ct.scheduledEnd,
                    estimatedTime := ct.estimatedTime } : Task).id.data = true := hp
      have hf' : C.find? (fun c => c.id ==
          ({ t with scheduledStart := ct.scheduledStart, scheduledEnd := ct.scheduledEnd,
                    estimatedTime := ct.estimatedTime } : Task).id) = some ct := hf
      rw [updateFromCandidates_of_find_some hp' hf']
  · have ht : updateFromCandidates C t = t := updateFromCandidates_of_not_calMatch hp
    rw [ht, ht]

theorem mem_candTasks {mkTime : Nat → Nat → Nat → Nat → Int} {len : Nat} :
    ∀ {es : List CalEvent} {i : Nat} {t : Task}, t ∈ candTasks mkTime len i es →
      ∃ j e, e ∈ es ∧ t = eventToTask mkTime len j e := by
  intro es
  induction es with
  | nil => intro i t ht; simp [candTasks] at ht
  | cons e rest ih =>
    intro i t ht
    rw [candTasks] at ht
    rcases List.mem_cons.mp ht with ht | ht
    · exact ⟨i, e, List.mem_cons_self _ _, ht⟩
    · obtain ⟨j, e', he', ht'⟩ := ih ht
      exact ⟨j, e', List.mem_cons_of_mem _ he', ht'⟩

theorem candTasks_corresponding (mkTime : Nat → Nat → Nat → Nat → Int) (len1 len2 : Nat) :
    ∀ (es : List CalEvent) (i : Nat) (t : Task), t ∈ candTasks mkTime len1 i es →
      ∃ t2 ∈ candTasks mkTime len2 i es, t2.id = t.id ∧ schedOf t2 = schedOf t := by
  intro es
  induction es with
  | nil => intro i t ht; simp [candTasks] at ht
  | cons e rest ih =>
    intro i t ht
    rw [candTasks] at ht
    rw [candTasks]
    rcases List.mem_cons.mp ht with ht | ht
    · subst ht
      exact ⟨eventToTask mkTime len2 i e, List.mem_cons_self _ _, rfl, rfl⟩
    · obtain ⟨t2, ht2, hid, hsched⟩ := ih (i + 1) t ht
      exact ⟨t2, List.mem_cons_of_mem _ ht2, hid, hsched⟩

theorem candTasks_ids (mkTime : Nat → Nat → Nat → Nat → Int) (len : Nat) :
    ∀ (es : List CalEvent) (i : Nat),
      (candTasks mkTime len i es).map (fun t => t.id) =
        es.map (fun e => "calendar-" ++ e.id) := by
  intro es
  induction es with
  | nil => intro i; rfl
  | cons e rest ih =>
    intro i
    rw [candTasks, List.map_cons, List.map_cons, ih (i + 1)]
    rfl

theorem calendar_prefix_inj {a b : String}
    (h : "calendar-" ++ a = "calendar-" ++ b) : a = b := by
  have hd := congrArg String.data h
  rw [String.data_append, String.data_append] at hd
  have hcancel := List.append_cancel_left hd
  cases a with
  | mk da =>
    cases b with
    | mk db => exact congrArg String.mk hcancel

theorem eventToTask_startsWith (mkTime : Nat → Nat → Nat → Nat → Int)
    (len i : Nat) (e : CalEvent) :
    "calendar-".data.isPrefixOf (eventToTask mkTime len i e).id.data = true := by
  have hid : (eventToTask mkTime len i e).id = "calendar-" ++ e.id := rfl
  rw [hid, String.data_append, List.isPrefixOf_iff_prefix]
  exact List.prefix_append _ _

/-- Claim C4, counterexample to the claim as stated: an event set containing two
events with the SAME external id (`x`) but different times breaks idempotence:
the first run appends both candidates; the second run rewrites the second
task's scheduling fields from the first matching candidate, so running the
merge twice differs from running it once (and the first run already created
two tasks with the same id). -/
theorem merge_idempotence_counterexample :
    mergeDay (fun _ _ _ _ => 0)
        (mergeDay (fun _ _ _ _ => 0) []
          [⟨"x", some "a", some 1000, some 2000, none, none⟩,
           ⟨"x", some "b", some 3000, some 4000, none, none⟩])
        [⟨"x", some "a", some 1000, some 2000, none, none⟩,
         ⟨"x", some "b", some 3000, some 4000, none, none⟩]
      ≠ mergeDay (fun _ _ _ _ => 0) []
          [⟨"x", some "a", some 1000, some 2000, none, none⟩,
           ⟨"x", some "b", some 3000, some 4000, none, none⟩] := by
  decide

/-- Claim C4, amended: for every day task list and every event list with
pairwise-distinct event ids (as a calendar query returns), the merge is
idempotent: running it a second time with the identical event list returns
the exact same task list — same sessions and totalTime per task, no duplicate
tasks created, and scheduling fields already converged to the latest
events. -/
theorem mergeDay_idempotent (mkTime : Nat → Nat → Nat → Nat → Int)
    (dateTasks : List Task) (events : List CalEvent)
    (hids : (events.map (fun e => e.id)).Nodup) :
    mergeDay mkTime (mergeDay mkTime dateTasks events) events =
      mergeDay mkTime dateTasks events := by
  set fes := events.filter eventFilter with hfes
  set C1 := candTasks mkTime dateTasks.length 0 fes with hC1
  set final := mergeDay mkTime dateTasks events with hfinal
  set C2 := candTasks mkTime final.length 0 fes with hC2
  have hcorr : C1.map (fun t => (t.id, schedOf t)) = C2.map (fun t => (t.id, schedOf t)) :=
    candTasks_map_idSched mkTime dateTasks.length final.length fes 0
  have hfinal_eq : final = dateTasks.map (updateFromCandidates C1) ++
      mergeDayNew C1 (dateTasks.map (fun t => t.id)) := rfl
  have hC2ids : C2.map (fun t => t.id) = fes.map (fun e => "calendar-" ++ e.id) :=
    candTasks_ids mkTime final.length fes 0
  have hfesids : (fes.map (fun e => e.id)).Nodup :=
    hids.sublist ((List.filter_sublist events).map _)
  have hC2nodup : (C2.map (fun t => t.id)).Nodup := by
    rw [hC2ids]
    have hmm : fes.map (fun e => "calendar-" ++ e.id) =
        (fes.map (fun e => e.id)).map (fun x => "calendar-" ++ x) := by
      rw [List.map_map]
      rfl
    rw [hmm]
    exact hfesids.map (fun x y hxy => calendar_prefix_inj hxy)
  have hid_in : ∀ c ∈ C2, c.id ∈ final.map (fun t => t.id) := by
    intro c hc
    obtain ⟨c1, hc1, hcid, _⟩ :=
      candTasks_corresponding mkTime final.length dateTasks.length fes 0 c hc
    rw [← hcid]
    by_cases hmem : c1.id ∈ dateTasks.map (fun t => t.id)
    · rw [hfinal_eq, List.map_append]
      apply List.mem_append_left
      rw [map_id_of_preserve (updateFromCandidates_id C1)]
      exact hmem
    · have hnew : c1 ∈ mergeDayNew C1 (dateTasks.map (fun t => t.id)) := by
        unfold mergeDayNew
        refine List.mem_filter.mpr ⟨hc1, ?_⟩
        simp [hmem]
      rw [hfinal_eq, List.map_append]
      apply List.mem_append_right
      exact List.mem_map_of_mem _ hnew
  have hnew2 : mergeDayNew C2 (final.map (fun t => t.id)) = [] := by
    unfold mergeDayNew
    rw [List.filter_eq_nil_iff]
    intro c hc
    simp [hid_in c hc]
  have hupd : ∀ x ∈ final, updateFromCandidates C2 x = x := by
    intro x hx
    rw [hfinal_eq] at hx
    rcases List.mem_append.mp hx with hx | hx
    · rcases List.mem_map.mp hx with ⟨u, _, rfl⟩
      rw [← updateFromCandidates_congr hcorr (updateFromCandidates C1 u)]
      exact updateFromCandidates_idem C1 u
    · have hxC1 : x ∈ C1 := List.mem_of_mem_filter hx
      obtain ⟨c2, hc2, hcid, hcsched⟩ :=
        candTasks_corresponding mkTime dateTasks.length final.length fes 0 x hxC1
      obtain ⟨j, e, _, hxe⟩ := mem_candTasks hxC1
      have hp : "calendar-".data.isPrefixOf x.id.data = true := by
        rw [hxe]
        exact eventToTask_startsWith mkTime dateTasks.length j e
      have hex : (C2.find? (fun c => c.id == x.id)).isSome := by
        rw [List.find?_isSome]
        exact ⟨c2, hc2, by simp [hcid]⟩
      obtain ⟨c2', hc2'⟩ := Option.isSome_iff_exists.mp hex
      have hc2'mem : c2' ∈ C2 := List.mem_of_find?_eq_some hc2'
      have hc2'id : c2'.id = x.id := by
        have := List.find?_some hc2'
        simpa using this
      have hc2'eq : c2' = c2 :=
        List.inj_on_of_nodup_map hC2nodup hc2'mem hc2 (by rw [hc2'id, hcid])
      have hfind_some : C2.find? (fun c => c.id == x.id) = some c2 := by
        rw [hc2', hc2'eq]
      rw [updateFromCandidates_of_find_some hp hfind_some]
      have h1 : c2.scheduledStart = x.scheduledStart := congrArg (fun p => p.1) hcsched
      have h2 : c2.scheduledEnd = x.scheduledEnd := congrArg (fun p => p.2.1) hcsched
      have h3 : c2.estimatedTime = x.estimatedTime := congrArg (fun p => p.2.2) hcsched
      rw [h1, h2, h3]
  have hfinal2 : mergeDay mkTime final events =
      final.map (updateFromCandidates C2) ++
        mergeDayNew C2 (final.map (fun t => t.id)) := rfl
  rw [hfinal2, hnew2, List.append_nil]
  calc final.map (updateFromCandidates C2) = final.map id :=
        List.map_congr_left (fun x hx => hupd x hx)
    _ = final := List.map_id final

theorem mergeDay_idempotent_witness :
    mergeDay (fun _ _ _ _ => 0)
        (mergeDay (fun _ _ _ _ => 0)
          [⟨"m1", "manual", 5, [⟨1, some 3⟩], "c", 0, none, none, none⟩]
          [⟨"e1", some "meeting", some 32400000, some 36000000, none, none⟩])
        [⟨"e1", some "meeting", some 32400000, some 36000000, none, none⟩]
      = mergeDay (fun _ _ _ _ => 0)
          [⟨"m1", "manual", 5, [⟨1, some 3⟩], "c", 0, none, none, none⟩]
          [⟨"e1", some "meeting", some 32400000, some 36000000, none, none⟩] :=
  mergeDay_idempotent (fun _ _ _ _ => 0)
    [⟨"m1", "manual", 5, [⟨1, some 3⟩], "c", 0, none, none, none⟩]
    [⟨"e1", some "meeting", some 32400000, some 36000000, none, none⟩]
    (by decide)

theorem new_task_order_witness :
    (⟨"a", "na", 0, [], "c", 0, none, none, none⟩ : Task).order < wNewC9.order := by
  have h := new_task_order (fun _ _ _ _ => 0) wDayC9 wEvC9 (by decide)
  exact h wNewC9 (by decide) _ (by decide)

/-! ### C1: the single-open-session invariant -/

theorem candTasks_sessions {mkTime : Nat → Nat → Nat → Nat → Int} {len : Nat}
    {es : List CalEvent} {i : Nat} {t : Task} (ht : t ∈ candTasks mkTime len i es) :
    t.sessions = [] := by
  obtain ⟨j, e, _, rfl⟩ := mem_candTasks ht
  rfl

theorem candTasks_ids_nodup (mkTime : Nat → Nat → Nat → Nat → Int) (len : Nat)
    (events : List CalEvent) (hids : (events.map (fun e => e.id)).Nodup) :
    ((candTasks mkTime len 0 (events.filter eventFilter)).map (fun t => t.id)).Nodup := by
  rw [candTasks_ids]
  have hfes : ((events.filter eventFilter).map (fun e => e.id)).Nodup :=
    hids.sublist ((List.filter_sublist events).map _)
  have hmm : (events.filter eventFilter).map (fun e => "calendar-" ++ e.id) =
      ((events.filter eventFilter).map (fun e => e.id)).map (fun x => "calendar-" ++ x) := by
    rw [List.map_map]
    rfl
  rw [hmm]
  exact hfes.map (fun x y hxy => calendar_prefix_inj hxy)

theorem Inv_import {s : AppState} (hInv : Inv s) (mkTime : Nat → Nat → Nat → Nat → Int)
    (dateKey : String) (events : List CalEvent)
    (hids : (events.map (fun e => e.id)).Nodup) :
    Inv (fetchTasksFromGoogleCalendar mkTime s dateKey events) := by
  have hv_eq : mergeDay mkTime (getDay s.tasksByDate dateKey) events =
      (getDay s.tasksByDate dateKey).map
        (updateFromCandidates (candTasks mkTime (getDay s.tasksByDate dateKey).length 0
          (events.filter eventFilter))) ++
        mergeDayNew (candTasks mkTime (getDay s.tasksByDate dateKey).length 0
          (events.filter eventFilter))
          ((getDay s.tasksByDate dateKey).map (fun t => t.id)) := rfl
  have hopen_v : openCount (mergeDay mkTime (getDay s.tasksByDate dateKey) events) =
      openCount (getDay s.tasksByDate dateKey) := by
    rw [hv_eq, openCount_append]
    have h1 : openCount ((getDay s.tasksByDate dateKey).map
        (updateFromCandidates (candTasks mkTime (getDay s.tasksByDate dateKey).length 0
          (events.filter eventFilter)))) = openCount (getDay s.tasksByDate dateKey) :=
      openCount_map_congr (fun t _ => by
        unfold openCnt
        rw [updateFromCandidates_sessions])
    have h2 : openCount (mergeDayNew (candTasks mkTime
        (getDay s.tasksByDate dateKey).length 0 (events.filter eventFilter))
        ((getDay s.tasksByDate dateKey).map (fun t => t.id))) = 0 := by
      rw [openCount_eq_zero]
      intro t ht
      have htc := List.mem_of_mem_filter ht
      have hts : t.sessions = [] := candTasks_sessions htc
      unfold openCnt
      rw [hts]
      rfl
    rw [h1, h2]
    omega
  by_cases hdk : dateKey = s.selectedDateKey
  · subst hdk
    have hform : fetchTasksFromGoogleCalendar mkTime s s.selectedDateKey events =
        { s with
          tasks := mergeDay mkTime (getDay s.tasksByDate s.selectedDateKey) events,
          tasksByDate := setDay s.tasksByDate s.selectedDateKey
            (mergeDay mkTime (getDay s.tasksByDate s.selectedDateKey) events),
          activeTaskId := s.activeTaskId,
          startTime := s.startTime } := by
      unfold fetchTasksFromGoogleCalendar
      simp only [beq_self_eq_true, if_true]
    rw [hform]
    refine Inv_update_selected hInv ?_ ?_ hInv.2.2.2.2.1 ?_
    · rw [hopen_v, ← hInv.1]
      exact Inv.open_tasks_le hInv
    · intro t' ht' hop
      rw [hv_eq] at ht'
      rcases List.mem_append.mp ht' with ht' | ht'
      · rcases List.mem_map.mp ht' with ⟨t, ht, rfl⟩
        rw [updateFromCandidates_id]
        have hcnt : openCnt (updateFromCandidates
            (candTasks mkTime (getDay s.tasksByDate s.selectedDateKey).length 0
              (events.filter eventFilter)) t) = openCnt t := by
          unfold openCnt
          rw [updateFromCandidates_sessions]
        rw [hcnt] at hop
        rw [← hInv.1] at ht
        exact Inv.owner_tasks hInv t ht hop
      · have hts : t'.sessions = [] := candTasks_sessions (List.mem_of_mem_filter ht')
        have : openCnt t' = 0 := by
          unfold openCnt
          rw [hts]
          rfl
        omega
    · rw [hv_eq, List.map_append]
      have hupd_ids : (((getDay s.tasksByDate s.selectedDateKey).map
          (updateFromCandidates (candTasks mkTime
            (getDay s.tasksByDate s.selectedDateKey).length 0
            (events.filter eventFilter)))).map (fun t => t.id)) =
          (getDay s.tasksByDate s.selectedDateKey).map (fun t => t.id) :=
        map_id_of_preserve (updateFromCandidates_id _) _
      rw [hupd_ids]
      have hnew_nd : ((mergeDayNew (candTasks mkTime
          (getDay s.tasksByDate s.selectedDateKey).length 0 (events.filter eventFilter))
          ((getDay s.tasksByDate s.selectedDateKey).map
            (fun t => t.id))).map (fun t => t.id)).Nodup :=
        (candTasks_ids_nodup mkTime (getDay s.tasksByDate s.selectedDateKey).length
            events hids).sublist
          ((List.filter_sublist _).map _)
      refine List.Nodup.append ?_ hnew_nd ?_
      · rw [← hInv.1]
        exact hInv.2.2.2.2.2.2
      · intro x hx1 hx2
        rcases List.mem_map.mp hx2 with ⟨t, htn, rfl⟩
        have hpred := (List.mem_filter.mp htn).2
        have hnotmem : t.id ∉ (getDay s.tasksByDate s.selectedDateKey).map
            (fun u => u.id) := by
          simpa using hpred
        exact hnotmem hx1
  · have hform : fetchTasksFromGoogleCalendar mkTime s dateKey events =
        { s with
          tasksByDate := setDay s.tasksByDate dateKey
            (mergeDay mkTime (getDay s.tasksByDate dateKey) events) } := by
      unfold fetchTasksFromGoogleCalendar
      have hbeq : (dateKey == s.selectedDateKey) = false := by
        simpa using hdk
      rw [hbeq]
      rfl
    rw [hform]
    refine Inv_update_other hInv hdk ?_
    rw [hopen_v, openCount_eq_zero]
    intro t ht
    obtain ⟨p, hp, hpk, htp⟩ := getDay_mem ht
    exact hInv.2.2.2.2.2.1 p hp (by rw [hpk]; exact hdk) t htp

theorem Inv_reachable {s : AppState} (h : Reachable s) : Inv s := by
  induction h with
  | init sel today => exact Inv_init sel today
  | add id name color _ hfresh ih => exact Inv_add ih id name color hfresh
  | toggle taskId now _ ih => exact Inv_toggle ih taskId now
  | autoStop now _ ih => exact Inv_autoStop ih now
  | deleteTask taskId _ ih => exact Inv_deleteTask ih taskId
  | saveSession taskId i a b _ ih => exact Inv_saveSession ih taskId i a b
  | deleteSession taskId i _ ih => exact Inv_deleteSession ih taskId i
  | calendarImport mkTime dateKey events _ hids ih =>
      exact Inv_import ih mkTime dateKey events hids

/-- Claim C1, counterexample to the claim as stated: day-clear is one of the
claim's operations, and it breaks the invariant.  From the empty state with
selected day `2024-01-06` while today is `2024-01-07` (the app left open past
midnight), add a task, start it, then clear the day: the open session
survives the clear (the source keeps open sessions when the selected day is
not today) while the active-task marker is reset — a reachable state whose
open session belongs to no tracked active task. -/
theorem single_open_session_counterexample :
    (handleResetToday
        (handleTaskToggle (handleAddTask (initState "2024-01-06" "2024-01-07") "a" "na" "c")
          "a" 5) 0).activeTaskId = none ∧
    openCount (allTasksOf (handleResetToday
        (handleTaskToggle (handleAddTask (initState "2024-01-06" "2024-01-07") "a" "na" "c")
          "a" 5) 0).tasksByDate) = 1 ∧
    ¬ (∀ p ∈ (handleResetToday
        (handleTaskToggle (handleAddTask (initState "2024-01-06" "2024-01-07") "a" "na" "c")
          "a" 5) 0).tasksByDate, ∀ t ∈ p.2, 0 < openCnt t →
        (handleResetToday
          (handleTaskToggle (handleAddTask (initState "2024-01-06" "2024-01-07") "a" "na" "c")
            "a" 5) 0).activeTaskId = some t.id) := by
  decide

/-- Claim C1, amended: in every state reachable from the empty state via add,
start/stop toggle, auto-stop, task delete, manual session edit, session
delete, and calendar import (with fresh ids on add and duplicate-free event
ids on import), at most one session across the whole task universe has no
end, and the task owning any open session has id equal to the tracked
active-task id.  The invariant does not survive day-clear (see the
counterexample) nor the inbound snapshot merge, whose diff-gate can keep the
local tasks while restoring a remote active id. -/
theorem single_open_session_invariant {s : AppState} (h : Reachable s) :
    openCount (allTasksOf s.tasksByDate) ≤ 1 ∧
    ∀ p ∈ s.tasksByDate, ∀ t ∈ p.2, 0 < openCnt t → s.activeTaskId = some t.id := by
  obtain ⟨_, _, hbound, howner, _, _, _⟩ := Inv_reachable h
  exact ⟨hbound, howner⟩

theorem single_open_session_invariant_witness :
    openCount (allTasksOf (handleTaskToggle
        (handleAddTask (initState "d" "d") "a" "na" "c") "a" 5).tasksByDate) ≤ 1 ∧
    ∀ p ∈ (handleTaskToggle (handleAddTask (initState "d" "d") "a" "na" "c")
        "a" 5).tasksByDate, ∀ t ∈ p.2, 0 < openCnt t →
      (handleTaskToggle (handleAddTask (initState "d" "d") "a" "na" "c")
        "a" 5).activeTaskId = some t.id :=
  single_open_session_invariant
    (Reachable.toggle "a" 5
      (Reachable.add "a" "na" "c" (Reachable.init "d" "d") (by decide)))

end TaskLog
